import Mathlib

/-!
Shallow embedding of the incremental graph-maintenance engine of the
`ha_network-connections-card` repository.

The repository ships two variants of the card:

* `src/network-connections-card.js` — the diff-based variant: `_deltaUpdate`
  diffs the new snapshot against `_prevConnections`, processes added and
  removed connections, ensures hub→port links and prunes unreferenced nodes.
* `src/unnamed/part_001` — the sync-based variant: `_deltaUpdate` rebuilds the
  full link list from the snapshot and `_syncNodesAndLinks` reconciles it with
  the old one; this variant also calls `_restoreNodePositions` on the first
  data arrival.

Both variants are embedded below.  Numbers are modeled by `ℚ` (the JS code
uses IEEE doubles; the claims under consideration are about exact formulas
and structure, not rounding).  `Math.cos`/`Math.sin` at the star angles
`2π·k/8` are abstracted by a parameter `trig : Nat → ℚ × ℚ` (cosine and sine
at angle `2π·k/8`), and `Math.random()` for the bloom placement by a stream
`rnd : Nat → ℚ × ℚ` of (cos θ, sin θ) pairs consumed one per created IP node.
`undefined`/`null` numeric fields are modeled by `Option ℚ` (a JS `NaN`
resulting from arithmetic on an undefined coordinate is modeled as `none`).
JS object maps are modeled as association lists in insertion order, matching
JS string-keyed property iteration order for the ids this card generates.
-/

/-- A connection tuple `{source, target, port}` from the sensor snapshot. -/
structure Conn where
  source : String
  target : String
  port : Nat
deriving DecidableEq

/-- A graph node as stored in `this._nodesMap`. -/
structure Node where
  id : String
  type : String
  label : Option String := none
  x : Option ℚ := none
  y : Option ℚ := none
  fx : Option ℚ := none
  fy : Option ℚ := none
deriving DecidableEq

/-- A link as stored in `this._links`; endpoints are node ids. -/
structure Link where
  source : String
  target : String
deriving DecidableEq

/-- The node map, keyed by node id, in insertion order. -/
abbrev NodeMap := List (String × Node)

/-- The mutable graph state of the diff-based variant:
`_nodesMap`, `_links`, `_prevConnections`. -/
structure GraphState where
  nodesMap : NodeMap
  links : List Link
  prevConnections : List Conn
deriving DecidableEq

/-- The freshly constructed card: empty node map, no links, no previous
snapshot. -/
def initGraph : GraphState := ⟨[], [], []⟩

/-- `connectionKey`: the diff key `` `${source}_${target}_${port}` ``. -/
def connectionKey (c : Conn) : String :=
  c.source ++ "_" ++ c.target ++ "_" ++ toString c.port

/-- The loopback filter predicate:
`source !== "127.0.0.1" && target !== "127.0.0.1"`. -/
def notLoopback (c : Conn) : Bool :=
  c.source != "127.0.0.1" && c.target != "127.0.0.1"

/-- The port node id `` `port-${port}` ``. -/
def portId (p : Nat) : String := "port-" ++ toString p

/-- The link key `(l.source.id || l.source) + "->" + (l.target.id || l.target)`
(the embedding stores ids, so both readings coincide). -/
def linkKey (l : Link) : String := l.source ++ "->" ++ l.target

/-- Association-list lookup (JS `map[key]`), first match. -/
def lookupA {α : Type} (k : String) : List (String × α) → Option α
  | [] => none
  | kv :: rest => if kv.1 = k then some kv.2 else lookupA k rest

/-- In-place mutation of the node stored under key `k` (JS field assignment
on `map[k]`). -/
def mutateNode (k : String) (f : Node → Node) (m : NodeMap) : NodeMap :=
  m.map (fun kv => if kv.1 = k then (kv.1, f kv.2) else kv)

/-- The hub node created pinned at the viewport center. -/
def hubNode (hubId : String) (w h : ℚ) : Node :=
  { id := hubId, type := "hub", fx := some (w / 2), fy := some (h / 2) }

/-- `if (!this._nodesMap[this.hubId]) { this._nodesMap[this.hubId] = {...} }`. -/
def ensureHub (hubId : String) (w h : ℚ) (m : NodeMap) : NodeMap :=
  if (lookupA hubId m).isSome then m else m ++ [(hubId, hubNode hubId w h)]

/-- The star-layout radius for port index `i`:
`ringBase = min(w,h)*0.3 + floor(i/8)*150`, outer ratio `1.0` on even
positions, inner ratio `0.5` on odd positions. -/
def starRadius (w h : ℚ) (i : Nat) : ℚ :=
  let ringBase : ℚ := min w h * (3 / 10) + ((i / 8 : Nat) : ℚ) * 150
  if i % 8 % 2 = 0 then ringBase * 1 else ringBase * (1 / 2)

/-- The star-layout coordinate for port index `i`: viewport center plus
`(cos, sin)` of angle `2π·(i mod 8)/8` times the star radius. -/
def starPlacement (trig : Nat → ℚ × ℚ) (w h : ℚ) (i : Nat) : ℚ × ℚ :=
  let cs := trig (i % 8)
  (w / 2 + cs.1 * starRadius w h i, h / 2 + cs.2 * starRadius w h i)

/-- The pinned port node created for port `p` discovered at index `i`. -/
def portNode (trig : Nat → ℚ × ℚ) (w h : ℚ) (p : Nat) (i : Nat) : Node :=
  { id := portId p, type := "port", label := some ("Port " ++ toString p),
    fx := some (starPlacement trig w h i).1,
    fy := some (starPlacement trig w h i).2 }

/-- The `uniquePorts.forEach((port, i) => ...)` star-layout builder, with the
running index made explicit. -/
def ensurePortsAux (trig : Nat → ℚ × ℚ) (w h : ℚ) : Nat → List Nat → NodeMap → NodeMap
  | _, [], m => m
  | i, p :: ps, m =>
    let m2 := if (lookupA (portId p) m).isSome then m
              else m ++ [(portId p, portNode trig w h p i)]
    ensurePortsAux trig w h (i + 1) ps m2

/-- Ensure a pinned port node exists for each distinct port, in discovery
order (source lines 138–159 of `network-connections-card.js`). -/
def ensurePorts (trig : Nat → ℚ × ℚ) (w h : ℚ) (ports : List Nat) (m : NodeMap) : NodeMap :=
  ensurePortsAux trig w h 0 ports m

/-- `Array.from(new Set(list))`: deduplication keeping first occurrences. -/
def dedupFirstAux : List Nat → List Nat → List Nat
  | _, [] => []
  | seen, p :: ps =>
    if p ∈ seen then dedupFirstAux seen ps
    else p :: dedupFirstAux (p :: seen) ps

/-- `Array.from(new Set(connections.map(c => c.port)))`. -/
def dedupFirst (l : List Nat) : List Nat := dedupFirstAux [] l

/-- `_placeIpNearPort`: set the bloom position `x, y` of a freshly created IP
node at random angle, radius 50, around its port's pin.  Consumes one entry
of the randomness stream when the port node exists.  (A JS `NaN` arising from
an undefined port coordinate is modeled as `none`.) -/
def placeIpNearPort (rnd : Nat → ℚ × ℚ) (ctr : Nat) (m : NodeMap) (ipId pid : String) :
    NodeMap × Nat :=
  match lookupA pid m with
  | none => (m, ctr)
  | some pn =>
    let cs := rnd ctr
    (mutateNode ipId
      (fun n => { n with x := pn.fx.map (fun a => a + cs.1 * 50),
                         y := pn.fy.map (fun b => b + cs.2 * 50) }) m,
     ctr + 1)

/-- `if (!this._nodesMap[ip]) { this._nodesMap[ip] = {id, type:"ip"}; this._placeIpNearPort(...) }`. -/
def addIpEndpoint (rnd : Nat → ℚ × ℚ) (pid : String) (ipId : String)
    (mc : NodeMap × Nat) : NodeMap × Nat :=
  if (lookupA ipId mc.1).isSome then mc
  else
    let m2 := mc.1 ++ [(ipId, { id := ipId, type := "ip" : Node })]
    placeIpNearPort rnd mc.2 m2 ipId pid

/-- One iteration of the added-connections loop: ensure both endpoint IP
nodes and push the implied IP↔port links. -/
def addedStep (rnd : Nat → ℚ × ℚ) (acc : NodeMap × List Link × Nat) (c : Conn) :
    NodeMap × List Link × Nat :=
  let pid := portId c.port
  let mc1 := addIpEndpoint rnd pid c.source (acc.1, acc.2.2)
  let mc2 := addIpEndpoint rnd pid c.target mc1
  let links1 := if (lookupA c.source mc2.1).map Node.type = some "ip"
                then acc.2.1 ++ [⟨c.source, pid⟩] else acc.2.1
  let links2 := if (lookupA c.target mc2.1).map Node.type = some "ip"
                then links1 ++ [⟨pid, c.target⟩] else links1
  (mc2.1, links2, mc2.2)

/-- `addedConnections.forEach(...)` (also the whole-snapshot loop of the
sync-based variant, which has the identical body). -/
def processAdded (rnd : Nat → ℚ × ℚ) (added : List Conn) (m : NodeMap)
    (links : List Link) (ctr : Nat) : NodeMap × List Link × Nat :=
  added.foldl (addedStep rnd) (m, links, ctr)

/-- One iteration of the removed-connections loop: drop every link whose key
is `source->port-p` or `port-p->target`. -/
def removedStep (links : List Link) (c : Conn) : List Link :=
  let pid := portId c.port
  links.filter (fun l =>
    linkKey l != c.source ++ "->" ++ pid && linkKey l != pid ++ "->" ++ c.target)

/-- `removedConnections.forEach(...)`. -/
def processRemoved (removed : List Conn) (links : List Link) : List Link :=
  removed.foldl removedStep links

/-- One iteration of the hub-link loop: add `hub -> port-p` unless a link
with that key already exists. -/
def hubLinkStep (hubId : String) (links : List Link) (p : Nat) : List Link :=
  if links.any (fun l => linkKey l == hubId ++ "->" ++ portId p) then links
  else links ++ [⟨hubId, portId p⟩]

/-- `uniquePorts.forEach((port) => ...)`: ensure each current port is linked
to the hub. -/
def ensureHubLinks (hubId : String) (ports : List Nat) (links : List Link) : List Link :=
  ports.foldl (hubLinkStep hubId) links

/-- The set (as a list, duplicates irrelevant) of node ids referenced by any
link endpoint, plus the hub id. -/
def usedNodeIds (hubId : String) (links : List Link) : List String :=
  links.foldl (fun s l => s ++ [l.source, l.target]) [] ++ [hubId]

/-- Remove nodes that are no longer referenced by any link (the hub is always
kept). -/
def pruneNodes (hubId : String) (links : List Link) (m : NodeMap) : NodeMap :=
  let used := usedNodeIds hubId links
  m.filter (fun kv => decide (kv.1 ∈ used))

/-- The added/removed connection sets of one diff. -/
structure DiffResult where
  added : List Conn
  removed : List Conn
deriving DecidableEq

/-- The diff of the previous accepted snapshot against the new normalized
snapshot, by `connectionKey` identity. -/
def computeDiff (prev curr : List Conn) : DiffResult :=
  let oldKeys := prev.map connectionKey
  let newKeys := curr.map connectionKey
  ⟨curr.filter (fun c => decide (connectionKey c ∉ oldKeys)),
   prev.filter (fun c => decide (connectionKey c ∉ newKeys))⟩

/-- Stage of `_deltaUpdate`: the diff of the previous accepted snapshot
against the new normalized one. -/
def duDiff (newConnections : List Conn) (st : GraphState) : DiffResult :=
  computeDiff st.prevConnections (newConnections.filter notLoopback)

/-- Stage of `_deltaUpdate`: the distinct ports of the normalized snapshot in
order of first appearance. -/
def duPorts (newConnections : List Conn) : List Nat :=
  dedupFirst ((newConnections.filter notLoopback).map Conn.port)

/-- Stages of `_deltaUpdate` up to and including the added-connections loop:
ensure hub, ensure star-layout port nodes, process added connections.
Returns the node map, the link list, and the randomness counter. -/
def duMapLinksCtr (hubId : String) (trig rnd : Nat → ℚ × ℚ) (w h : ℚ)
    (newConnections : List Conn) (st : GraphState) (ctr : Nat) :
    NodeMap × List Link × Nat :=
  processAdded rnd (duDiff newConnections st).added
    (ensurePorts trig w h (duPorts newConnections) (ensureHub hubId w h st.nodesMap))
    st.links ctr

/-- Stages of `_deltaUpdate` through the removed-connections loop and the
hub-link loop: the final link list of the cycle. -/
def duLinks (hubId : String) (trig rnd : Nat → ℚ × ℚ) (w h : ℚ)
    (newConnections : List Conn) (st : GraphState) (ctr : Nat) : List Link :=
  ensureHubLinks hubId (duPorts newConnections)
    (processRemoved (duDiff newConnections st).removed
      (duMapLinksCtr hubId trig rnd w h newConnections st ctr).2.1)

/-- `_deltaUpdate` of the diff-based variant (`src/network-connections-card.js`
lines 89–243, rendering and simulation plumbing excluded): filter loopback,
diff against the previous snapshot, ensure hub and star-layout ports, process
added then removed connections, ensure hub links, prune.  Returns the new
graph state, the diff, and the advanced randomness counter. -/
def deltaUpdate (hubId : String) (trig rnd : Nat → ℚ × ℚ) (w h : ℚ)
    (newConnections : List Conn) (st : GraphState) (ctr : Nat) :
    GraphState × DiffResult × Nat :=
  ({ nodesMap := pruneNodes hubId (duLinks hubId trig rnd w h newConnections st ctr)
        (duMapLinksCtr hubId trig rnd w h newConnections st ctr).1,
     links := duLinks hubId trig rnd w h newConnections st ctr,
     prevConnections := newConnections.filter notLoopback },
   duDiff newConnections st,
   (duMapLinksCtr hubId trig rnd w h newConnections st ctr).2.2)

/-- One `hass` update cycle: the snapshot delivered together with the
viewport dimensions current at that cycle. -/
structure UpdateCycle where
  snapshot : List Conn
  w : ℚ
  h : ℚ

/-- Apply one update cycle to graph state plus randomness counter. -/
def applyCycle (hubId : String) (trig rnd : Nat → ℚ × ℚ)
    (sc : GraphState × Nat) (u : UpdateCycle) : GraphState × Nat :=
  let r := deltaUpdate hubId trig rnd u.w u.h u.snapshot sc.1 sc.2
  (r.1, r.2.2)

/-- Run a sequence of update cycles on a freshly constructed card. -/
def runUpdates (hubId : String) (trig rnd : Nat → ℚ × ℚ) (us : List UpdateCycle) :
    GraphState × Nat :=
  us.foldl (applyCycle hubId trig rnd) (initGraph, 0)

/-- `_dragStarted`: pin the dragged node at its current position. -/
def dragStarted (n : Node) : Node := { n with fx := n.x, fy := n.y }

/-- `_dragged`: pin the dragged node at the pointer position. -/
def dragged (ex ey : ℚ) (n : Node) : Node := { n with fx := some ex, fy := some ey }

/-- `_dragEnded`: unpin IP nodes; hub and port nodes keep their pin. -/
def dragEnded (n : Node) : Node :=
  if n.type = "ip" then { n with fx := none, fy := none } else n

/-- External events driving the engine: data-arrival update cycles and drag
gestures on a node. -/
inductive Ev where
  | update (snapshot : List Conn) (w h : ℚ)
  | dragStart (id : String)
  | dragMove (id : String) (ex ey : ℚ)
  | dragEnd (id : String)

/-- Engine state for event runs: the graph, the randomness counter, and the
set of node ids currently being dragged (bookkeeping for well-formedness). -/
structure SysState where
  g : GraphState
  ctr : Nat
  dragging : List String

/-- Initial engine state. -/
def initSys : SysState := ⟨initGraph, 0, []⟩

/-- One event step. -/
def stepEv (hubId : String) (trig rnd : Nat → ℚ × ℚ) (s : SysState) : Ev → SysState
  | Ev.update snap w h =>
    let r := deltaUpdate hubId trig rnd w h snap s.g s.ctr
    ⟨r.1, r.2.2, s.dragging⟩
  | Ev.dragStart id =>
    ⟨{ s.g with nodesMap := mutateNode id dragStarted s.g.nodesMap }, s.ctr,
      id :: s.dragging⟩
  | Ev.dragMove id ex ey =>
    ⟨{ s.g with nodesMap := mutateNode id (dragged ex ey) s.g.nodesMap }, s.ctr,
      s.dragging⟩
  | Ev.dragEnd id =>
    ⟨{ s.g with nodesMap := mutateNode id dragEnded s.g.nodesMap }, s.ctr,
      s.dragging.erase id⟩

/-- Run a list of events on a freshly constructed card. -/
def runEv (hubId : String) (trig rnd : Nat → ℚ × ℚ) (evs : List Ev) : SysState :=
  evs.foldl (stepEv hubId trig rnd) initSys

/-- Well-formed event lists: a `dragMove` only targets a node with an active
drag (as guaranteed by the D3 drag behaviour). -/
def wfEvs : List String → List Ev → Bool
  | _, [] => true
  | ds, Ev.update _ _ _ :: r => wfEvs ds r
  | ds, Ev.dragStart id :: r => wfEvs (id :: ds) r
  | ds, Ev.dragMove id _ _ :: r => decide (id ∈ ds) && wfEvs ds r
  | ds, Ev.dragEnd id :: r => wfEvs (ds.erase id) r

/-- One persisted position record `{x, y, fx, fy}`; `none` models a missing
or non-numeric stored field. -/
structure PosRec where
  x : Option ℚ
  y : Option ℚ
  fx : Option ℚ
  fy : Option ℚ
deriving DecidableEq

/-- `_saveNodePositions`: record `{x, y, fx, fy}` for every current node. -/
def saveNodePositions (m : NodeMap) : List (String × PosRec) :=
  m.map (fun kv => (kv.1, ⟨kv.2.x, kv.2.y, kv.2.fx, kv.2.fy⟩))

/-- Apply one stored record to a live node: each of `x, y, fx, fy` is
overwritten only when the stored value is numeric. -/
def applyPos (pos : PosRec) (n : Node) : Node :=
  { n with
    x := match pos.x with | some v => some v | none => n.x,
    y := match pos.y with | some v => some v | none => n.y,
    fx := match pos.fx with | some v => some v | none => n.fx,
    fy := match pos.fy with | some v => some v | none => n.fy }

/-- `_restoreNodePositions`: for every id in the stored record that is
present in the live node map, apply the stored numeric fields. -/
def restoreNodePositions (saved : List (String × PosRec)) (m : NodeMap) : NodeMap :=
  saved.foldl (fun acc kv => mutateNode kv.1 (applyPos kv.2) acc) m

/-- Graph state of the sync-based variant (`src/unnamed/part_001`), which
keeps no previous snapshot. -/
structure PGraph where
  nodesMap : NodeMap
  links : List Link
deriving DecidableEq

/-- `_syncNodesAndLinks` of the sync-based variant: keep old links still
present in the new link list, append genuinely new links, then prune
unreferenced nodes. -/
def syncNodesAndLinks (hubId : String) (newLinks : List Link) (m : NodeMap)
    (oldLinks : List Link) : NodeMap × List Link :=
  let newKeys := newLinks.map linkKey
  let kept := oldLinks.filter (fun l => decide (linkKey l ∈ newKeys))
  let oldKeys := kept.map linkKey
  let links := kept ++ newLinks.filter (fun l => decide (linkKey l ∉ oldKeys))
  (pruneNodes hubId links m, links)

/-- The graph part of `_deltaUpdate` of the sync-based variant: filter
loopback, ensure hub and star-layout ports, rebuild the link list from the
whole snapshot plus one hub link per current port, then sync. -/
def partCore (hubId : String) (trig rnd : Nat → ℚ × ℚ) (w h : ℚ)
    (conns : List Conn) (g : PGraph) (ctr : Nat) : PGraph × Nat :=
  let connections := conns.filter notLoopback
  let m := ensureHub hubId w h g.nodesMap
  let uniquePorts := dedupFirst (connections.map Conn.port)
  let m2 := ensurePorts trig w h uniquePorts m
  let mlc := processAdded rnd connections m2 [] ctr
  let newLinks := mlc.2.1 ++ uniquePorts.map (fun p => ⟨hubId, portId p⟩)
  let ml := syncNodesAndLinks hubId newLinks mlc.1 g.links
  (⟨ml.1, ml.2⟩, mlc.2.2)

/-- Engine state of the sync-based variant: graph, `_positionsRestored`
flag, a count of storage reads performed, and the randomness counter. -/
structure PEngine where
  g : PGraph
  positionsRestored : Bool
  storageReads : Nat
  ctr : Nat
deriving DecidableEq

/-- A freshly constructed sync-based card. -/
def initPEngine : PEngine := ⟨⟨[], []⟩, false, 0, 0⟩

/-- `_deltaUpdate` of the sync-based variant: run the graph part, and on the
first cycle only (`!this._positionsRestored`) read the stored positions and
apply them before the node map is handed to the simulation. -/
def partDeltaUpdate (saved : List (String × PosRec)) (hubId : String)
    (trig rnd : Nat → ℚ × ℚ) (w h : ℚ) (conns : List Conn) (e : PEngine) : PEngine :=
  let gc := partCore hubId trig rnd w h conns e.g e.ctr
  if e.positionsRestored then ⟨gc.1, true, e.storageReads, gc.2⟩
  else ⟨⟨restoreNodePositions saved gc.1.nodesMap, gc.1.links⟩, true,
        e.storageReads + 1, gc.2⟩

/-- Run a sequence of update cycles on a freshly constructed sync-based card
against a fixed stored-position record. -/
def runPart (saved : List (String × PosRec)) (hubId : String)
    (trig rnd : Nat → ℚ × ℚ) (us : List UpdateCycle) : PEngine :=
  us.foldl (fun e u => partDeltaUpdate saved hubId trig rnd u.w u.h u.snapshot e)
    initPEngine

/-- A concrete trigonometry backend for witnesses and counterexamples:
exact values at angles `0`, `π/2`, and a rational stand-in at the other
star angles. -/
def trig0 : Nat → ℚ × ℚ :=
  fun k => if k = 0 then (1, 0) else if k = 2 then (0, 1) else (7/10, 7/10)

/-- A concrete bloom-randomness stream for witnesses: every drawn angle is 0. -/
def rnd0 : Nat → ℚ × ℚ := fun _ => (1, 0)

/-- The default hub id of the card. -/
def hub0 : String := "192.168.2.1"

/-! ### Basic lemmas about the association-list operations -/

theorem lookupA_append_of_some {α : Type} {k : String} {m : List (String × α)} {v : α}
    (e : List (String × α)) (h : lookupA k m = some v) : lookupA k (m ++ e) = some v := by
  induction m with
  | nil => simp [lookupA] at h
  | cons kv rest ih =>
    simp only [lookupA, List.cons_append] at h ⊢
    by_cases hk : kv.1 = k
    · simpa [hk] using h
    · simp only [hk, if_false] at h ⊢
      exact ih h

theorem lookupA_append_of_none {α : Type} {k : String} {m : List (String × α)}
    (e : List (String × α)) (h : lookupA k m = none) :
    lookupA k (m ++ e) = lookupA k e := by
  induction m with
  | nil => simp
  | cons kv rest ih =>
    simp only [lookupA, List.cons_append] at h ⊢
    by_cases hk : kv.1 = k
    · simp [hk] at h
    · simp only [hk, if_false] at h ⊢
      exact ih h

theorem lookupA_append_none {α : Type} {k : String} {m e : List (String × α)}
    (h : lookupA k (m ++ e) = none) : lookupA k m = none := by
  induction m with
  | nil => simp [lookupA]
  | cons kv rest ih =>
    simp only [lookupA, List.cons_append] at h ⊢
    by_cases hk : kv.1 = k
    · simp [hk] at h
    · simp only [hk, if_false] at h ⊢
      exact ih h

theorem lookupA_isSome_append {α : Type} {k : String} {m : List (String × α)}
    (e : List (String × α)) (h : (lookupA k m).isSome) :
    (lookupA k (m ++ e)).isSome := by
  obtain ⟨v, hv⟩ := Option.isSome_iff_exists.mp h
  rw [lookupA_append_of_some e hv]
  rfl

theorem lookupA_singleton_self {α : Type} {k : String} {v : α}
    {m : List (String × α)} (h : lookupA k m = none) :
    lookupA k (m ++ [(k, v)]) = some v := by
  rw [lookupA_append_of_none _ h]
  simp [lookupA]

theorem lookupA_eq_none_iff {α : Type} {k : String} {m : List (String × α)} :
    lookupA k m = none ↔ ∀ kv ∈ m, kv.1 ≠ k := by
  induction m with
  | nil => simp [lookupA]
  | cons kv rest ih =>
    simp only [lookupA, List.mem_cons]
    by_cases hk : kv.1 = k
    · simp [hk]
    · simp only [hk, if_false, ih]
      constructor
      · rintro h a (rfl | ha)
        · exact hk
        · exact h a ha
      · intro h a ha
        exact h a (Or.inr ha)

theorem lookupA_mutate_self {k : String} (f : Node → Node) (m : NodeMap) :
    lookupA k (mutateNode k f m) = (lookupA k m).map f := by
  induction m with
  | nil => simp [lookupA, mutateNode]
  | cons kv rest ih =>
    simp only [mutateNode, List.map_cons] at ih ⊢
    by_cases hk : kv.1 = k
    · simp [lookupA, hk]
    · simp [lookupA, hk, ih]

theorem lookupA_mutate_ne {k k2 : String} (hne : k2 ≠ k) (f : Node → Node) (m : NodeMap) :
    lookupA k (mutateNode k2 f m) = lookupA k m := by
  induction m with
  | nil => simp [lookupA, mutateNode]
  | cons kv rest ih =>
    simp only [mutateNode, List.map_cons] at ih ⊢
    by_cases hk : kv.1 = k2
    · simp [lookupA, hk, hne, ih]
    · simp only [hk, if_false]
      simp [lookupA, ih]

theorem lookupA_filter_decide {α : Type} (P : String → Prop) [DecidablePred P]
    (k : String) (m : List (String × α)) :
    lookupA k (m.filter fun kv => decide (P kv.1)) =
      if P k then lookupA k m else none := by
  induction m with
  | nil => simp [lookupA]
  | cons kv rest ih =>
    by_cases hP : P kv.1
    · by_cases hk : kv.1 = k
      · subst hk
        simp [List.filter_cons, hP, lookupA, ih]
      · simp [List.filter_cons, hP, lookupA, hk, ih]
    · by_cases hk : kv.1 = k
      · subst hk
        simp [List.filter_cons, hP, lookupA, ih]
      · simp [List.filter_cons, hP, lookupA, hk, ih]

theorem mutateNode_of_lookup_none {k : String} {m : NodeMap}
    (f : Node → Node) (h : lookupA k m = none) : mutateNode k f m = m := by
  induction m with
  | nil => rfl
  | cons kv rest ih =>
    simp only [lookupA] at h
    by_cases hk : kv.1 = k
    · simp [hk] at h
    · simp only [hk, if_false] at h
      have h2 := ih h
      simp only [mutateNode] at h2 ⊢
      simp [hk, h2]

/-! ### Preservation lemmas for the `_deltaUpdate` phases -/

theorem ensureHub_pres_some {hubId : String} {w h : ℚ} {k : String} {m : NodeMap} {v : Node}
    (hk : lookupA k m = some v) : lookupA k (ensureHub hubId w h m) = some v := by
  unfold ensureHub
  by_cases hs : (lookupA hubId m).isSome
  · simp [hs, hk]
  · simp only [hs, if_false]
    exact lookupA_append_of_some _ hk

theorem ensureHub_hub_isSome (hubId : String) (w h : ℚ) (m : NodeMap) :
    (lookupA hubId (ensureHub hubId w h m)).isSome := by
  unfold ensureHub
  cases hlk : lookupA hubId m with
  | some v => simp [hlk]
  | none =>
    simp only [hlk, Option.isSome_none, Bool.false_eq_true, if_false]
    rw [lookupA_singleton_self hlk]
    rfl

theorem ensurePortsAux_pres_some {trig : Nat → ℚ × ℚ} {w h : ℚ} {k : String} {v : Node} :
    ∀ (i : Nat) (ps : List Nat) (m : NodeMap), lookupA k m = some v →
      lookupA k (ensurePortsAux trig w h i ps m) = some v := by
  intro i ps
  induction ps generalizing i with
  | nil => intro m hm; simpa [ensurePortsAux]
  | cons p rest ih =>
    intro m hm
    simp only [ensurePortsAux]
    by_cases hs : (lookupA (portId p) m).isSome
    · simp only [hs, if_true]
      exact ih _ _ hm
    · simp only [hs, if_false]
      exact ih _ _ (lookupA_append_of_some _ hm)

theorem ensurePorts_pres_some {trig : Nat → ℚ × ℚ} {w h : ℚ} {k : String} {v : Node}
    {ps : List Nat} {m : NodeMap} (hm : lookupA k m = some v) :
    lookupA k (ensurePorts trig w h ps m) = some v :=
  ensurePortsAux_pres_some 0 ps m hm

theorem ensurePortsAux_mem_isSome (trig : Nat → ℚ × ℚ) (w h : ℚ) :
    ∀ (i : Nat) (ps : List Nat) (m : NodeMap) (p : Nat), p ∈ ps →
      (lookupA (portId p) (ensurePortsAux trig w h i ps m)).isSome := by
  intro i ps
  induction ps generalizing i with
  | nil => intro m p hp; simp at hp
  | cons q rest ih =>
    intro m p hp
    simp only [ensurePortsAux]
    rcases List.mem_cons.mp hp with rfl | hp2
    · cases hlk : lookupA (portId p) m with
      | some v =>
        simp only [hlk, Option.isSome_some, if_true]
        rw [ensurePortsAux_pres_some _ _ _ hlk]
        rfl
      | none =>
        simp only [hlk, Option.isSome_none, Bool.false_eq_true, if_false]
        rw [ensurePortsAux_pres_some _ _ _ (lookupA_singleton_self hlk)]
        rfl
    · cases hlk : lookupA (portId q) m with
      | some v =>
        simp only [hlk, Option.isSome_some, if_true]
        exact ih _ _ _ hp2
      | none =>
        simp only [hlk, Option.isSome_none, Bool.false_eq_true, if_false]
        exact ih _ _ _ hp2

theorem ensurePortsAux_shape (trig : Nat → ℚ × ℚ) (w h : ℚ) :
    ∀ (i : Nat) (ps : List Nat) (m : NodeMap),
      ∃ ext, ensurePortsAux trig w h i ps m = m ++ ext ∧
        ∀ kv ∈ ext, lookupA kv.1 m = none ∧ kv.2.type = "port" ∧
          ∃ p ∈ ps, kv.1 = portId p := by
  intro i ps
  induction ps generalizing i with
  | nil => intro m; exact ⟨[], by simp [ensurePortsAux]⟩
  | cons q rest ih =>
    intro m
    simp only [ensurePortsAux]
    by_cases hs : (lookupA (portId q) m).isSome
    · simp only [hs, if_true]
      obtain ⟨ext, he, hprop⟩ := ih (i + 1) m
      refine ⟨ext, he, fun kv hkv => ?_⟩
      obtain ⟨h1, ht, p, hp, h2⟩ := hprop kv hkv
      exact ⟨h1, ht, p, List.mem_cons_of_mem _ hp, h2⟩
    · simp only [hs, if_false]
      obtain ⟨ext, he, hprop⟩ := ih (i + 1) (m ++ [(portId q, portNode trig w h q i)])
      refine ⟨(portId q, portNode trig w h q i) :: ext, by simpa using he,
        fun kv hkv => ?_⟩
      rcases List.mem_cons.mp hkv with rfl | hkv2
      · exact ⟨Option.not_isSome_iff_eq_none.mp hs, rfl, q, List.mem_cons_self _ _, rfl⟩
      · obtain ⟨h1, ht, p, hp, h2⟩ := hprop kv hkv2
        exact ⟨lookupA_append_none h1, ht, p, List.mem_cons_of_mem _ hp, h2⟩

theorem placeIpNearPort_pres_some {rnd : Nat → ℚ × ℚ} {ctr : Nat} {k ipId pid : String}
    {m : NodeMap} {v : Node} (hne : ipId ≠ k) (hm : lookupA k m = some v) :
    lookupA k (placeIpNearPort rnd ctr m ipId pid).1 = some v := by
  unfold placeIpNearPort
  cases hpn : lookupA pid m with
  | none => simpa
  | some pn =>
    simp only
    rw [lookupA_mutate_ne hne]
    exact hm

theorem addIpEndpoint_pres_some {rnd : Nat → ℚ × ℚ} {pid ipId k : String}
    {mc : NodeMap × Nat} {v : Node} (hm : lookupA k mc.1 = some v) :
    lookupA k (addIpEndpoint rnd pid ipId mc).1 = some v := by
  unfold addIpEndpoint
  by_cases hs : (lookupA ipId mc.1).isSome
  · simpa [hs]
  · simp only [hs, if_false]
    have hnone := Option.not_isSome_iff_eq_none.mp hs
    have hne : ipId ≠ k := by
      intro hkk
      rw [hkk] at hnone
      rw [hnone] at hm
      exact Option.noConfusion hm
    exact placeIpNearPort_pres_some hne (lookupA_append_of_some _ hm)

theorem addedStep_pres_some (rnd : Nat → ℚ × ℚ) (acc : NodeMap × List Link × Nat)
    (c : Conn) {k : String} {v : Node} (hm : lookupA k acc.1 = some v) :
    lookupA k (addedStep rnd acc c).1 = some v := by
  unfold addedStep
  simp only
  exact addIpEndpoint_pres_some (addIpEndpoint_pres_some hm)

theorem processAdded_pres_some (rnd : Nat → ℚ × ℚ) :
    ∀ (added : List Conn) (m : NodeMap) (links : List Link) (ctr : Nat)
      (k : String) (v : Node), lookupA k m = some v →
      lookupA k (processAdded rnd added m links ctr).1 = some v := by
  intro added
  induction added with
  | nil => intro m links ctr k v hm; simpa [processAdded]
  | cons c rest ih =>
    intro m links ctr k v hm
    have hstep := addedStep_pres_some rnd (m, links, ctr) c hm
    simpa [processAdded] using
      ih (addedStep rnd (m, links, ctr) c).1 (addedStep rnd (m, links, ctr) c).2.1
        (addedStep rnd (m, links, ctr) c).2.2 k v hstep

theorem hub_mem_usedNodeIds (hubId : String) (links : List Link) :
    hubId ∈ usedNodeIds hubId links := by
  simp [usedNodeIds]

theorem lookupA_pruneNodes (hubId : String) (links : List Link) (k : String) (m : NodeMap) :
    lookupA k (pruneNodes hubId links m) =
      if k ∈ usedNodeIds hubId links then lookupA k m else none :=
  lookupA_filter_decide (fun s => s ∈ usedNodeIds hubId links) k m

theorem deltaUpdate_hub_isSome (hubId : String) (trig rnd : Nat → ℚ × ℚ) (w h : ℚ)
    (S : List Conn) (st : GraphState) (ctr : Nat) :
    (lookupA hubId (deltaUpdate hubId trig rnd w h S st ctr).1.nodesMap).isSome := by
  show (lookupA hubId (pruneNodes hubId _ (duMapLinksCtr hubId trig rnd w h S st ctr).1)).isSome
  rw [lookupA_pruneNodes]
  simp only [hub_mem_usedNodeIds, if_true]
  obtain ⟨v, hv⟩ := Option.isSome_iff_exists.mp (ensureHub_hub_isSome hubId w h st.nodesMap)
  unfold duMapLinksCtr
  rw [processAdded_pres_some rnd _ _ _ _ _ _ (ensurePorts_pres_some hv)]
  rfl

/-! ### Hub-link and pruning lemmas -/

theorem any_append_left {α : Type} {l : List α} (e : List α) {f : α → Bool}
    (h : l.any f = true) : (l ++ e).any f = true := by
  simp [List.any_append, h]

theorem hubLinkStep_mono {hubId : String} {links : List Link} {p : Nat} {f : Link → Bool}
    (h : links.any f = true) : (hubLinkStep hubId links p).any f = true := by
  unfold hubLinkStep
  split
  · exact h
  · exact any_append_left _ h

theorem ensureHubLinks_mono {hubId : String} {f : Link → Bool} :
    ∀ (ps : List Nat) (links : List Link), links.any f = true →
      (ensureHubLinks hubId ps links).any f = true := by
  intro ps
  induction ps with
  | nil => intro links h; exact h
  | cons p rest ih =>
    intro links h
    exact ih _ (hubLinkStep_mono h)

theorem hubLinkStep_self (hubId : String) (links : List Link) (p : Nat) :
    (hubLinkStep hubId links p).any
      (fun l => linkKey l == hubId ++ "->" ++ portId p) = true := by
  unfold hubLinkStep
  cases hc : links.any (fun l => linkKey l == hubId ++ "->" ++ portId p) with
  | true => simp [hc]
  | false =>
    simp only [hc, Bool.false_eq_true, if_false]
    simp [List.any_append, linkKey]

theorem ensureHubLinks_ensures (hubId : String) :
    ∀ (ps : List Nat) (links : List Link) (p : Nat), p ∈ ps →
      (ensureHubLinks hubId ps links).any
        (fun l => linkKey l == hubId ++ "->" ++ portId p) = true := by
  intro ps
  induction ps with
  | nil => intro links p hp; simp at hp
  | cons q rest ih =>
    intro links p hp
    rcases List.mem_cons.mp hp with rfl | hp2
    · exact ensureHubLinks_mono rest _ (hubLinkStep_self hubId links p)
    · exact ih _ p hp2

theorem ensureHubLinks_of_all (hubId : String) :
    ∀ (ps : List Nat) (links : List Link),
      (∀ p ∈ ps, links.any (fun l => linkKey l == hubId ++ "->" ++ portId p) = true) →
      ensureHubLinks hubId ps links = links := by
  intro ps
  induction ps with
  | nil => intro links _; rfl
  | cons q rest ih =>
    intro links hall
    have hq := hall q (List.mem_cons_self _ _)
    show ensureHubLinks hubId rest (hubLinkStep hubId links q) = links
    rw [show hubLinkStep hubId links q = links by unfold hubLinkStep; simp [hq]]
    exact ih _ (fun p hp => hall p (List.mem_cons_of_mem _ hp))

theorem pruneNodes_append (hubId : String) (links : List Link) (m e : NodeMap) :
    pruneNodes hubId links (m ++ e) =
      pruneNodes hubId links m ++ pruneNodes hubId links e := by
  simp [pruneNodes, List.filter_append]

theorem pruneNodes_idem (hubId : String) (links : List Link) (m : NodeMap) :
    pruneNodes hubId links (pruneNodes hubId links m) = pruneNodes hubId links m := by
  unfold pruneNodes
  rw [List.filter_filter]
  simp

theorem pruneNodes_eq_nil (hubId : String) (links : List Link) (m : NodeMap)
    (h : ∀ kv ∈ m, kv.1 ∉ usedNodeIds hubId links) :
    pruneNodes hubId links m = [] := by
  unfold pruneNodes
  rw [List.filter_eq_nil_iff]
  intro kv hkv
  simp [h kv hkv]

/-! ### The second application of an identical snapshot -/

theorem computeDiff_self (l : List Conn) : computeDiff l l = ⟨[], []⟩ := by
  unfold computeDiff
  have h1 : l.filter (fun c => decide (connectionKey c ∉ l.map connectionKey)) = [] := by
    rw [List.filter_eq_nil_iff]
    intro c hc
    simp [List.mem_map_of_mem _ hc]
  show DiffResult.mk
      (l.filter (fun c => decide (connectionKey c ∉ l.map connectionKey)))
      (l.filter (fun c => decide (connectionKey c ∉ l.map connectionKey))) = ⟨[], []⟩
  rw [h1]

theorem duMapLinksCtr_port_isSome (hubId : String) (trig rnd : Nat → ℚ × ℚ) (w h : ℚ)
    (S : List Conn) (st : GraphState) (ctr : Nat) (p : Nat) (hp : p ∈ duPorts S) :
    (lookupA (portId p) (duMapLinksCtr hubId trig rnd w h S st ctr).1).isSome := by
  unfold duMapLinksCtr ensurePorts
  obtain ⟨v, hv⟩ := Option.isSome_iff_exists.mp
    (ensurePortsAux_mem_isSome trig w h 0 (duPorts S) (ensureHub hubId w h st.nodesMap) p hp)
  rw [processAdded_pres_some rnd _ _ _ _ _ _ hv]
  rfl

theorem duLinks_hub_match (hubId : String) (trig rnd : Nat → ℚ × ℚ) (w h : ℚ)
    (S : List Conn) (st : GraphState) (ctr : Nat) (p : Nat) (hp : p ∈ duPorts S) :
    (duLinks hubId trig rnd w h S st ctr).any
      (fun l => linkKey l == hubId ++ "->" ++ portId p) = true := by
  unfold duLinks
  exact ensureHubLinks_ensures hubId _ _ p hp

/-- C3: for every snapshot `S`, applying an update with `S` and then a second
update with the same `S` yields empty added and removed connection sets on
the second application, and the second application leaves the node map, the
edge list (and the whole graph state, including the retained snapshot and
the randomness counter) unchanged — for any starting state and any viewport
sizes on the two cycles. -/
theorem C3_idempotent_diff (hubId : String) (trig rnd : Nat → ℚ × ℚ)
    (w1 h1 w2 h2 : ℚ) (S : List Conn) (st : GraphState) (ctr : Nat) :
    (deltaUpdate hubId trig rnd w2 h2 S
        (deltaUpdate hubId trig rnd w1 h1 S st ctr).1
        (deltaUpdate hubId trig rnd w1 h1 S st ctr).2.2).2.1 = ⟨[], []⟩ ∧
    (deltaUpdate hubId trig rnd w2 h2 S
        (deltaUpdate hubId trig rnd w1 h1 S st ctr).1
        (deltaUpdate hubId trig rnd w1 h1 S st ctr).2.2).1 =
      (deltaUpdate hubId trig rnd w1 h1 S st ctr).1 ∧
    (deltaUpdate hubId trig rnd w2 h2 S
        (deltaUpdate hubId trig rnd w1 h1 S st ctr).1
        (deltaUpdate hubId trig rnd w1 h1 S st ctr).2.2).2.2 =
      (deltaUpdate hubId trig rnd w1 h1 S st ctr).2.2 := by
  have hdiff2 : duDiff S (deltaUpdate hubId trig rnd w1 h1 S st ctr).1 = ⟨[], []⟩ := by
    show computeDiff (S.filter notLoopback) (S.filter notLoopback) = _
    exact computeDiff_self _
  have hhub : ensureHub hubId w2 h2 (deltaUpdate hubId trig rnd w1 h1 S st ctr).1.nodesMap
      = (deltaUpdate hubId trig rnd w1 h1 S st ctr).1.nodesMap := by
    unfold ensureHub
    simp [deltaUpdate_hub_isSome hubId trig rnd w1 h1 S st ctr]
  obtain ⟨ext, hext, hprop⟩ := ensurePortsAux_shape trig w2 h2 0 (duPorts S)
    (deltaUpdate hubId trig rnd w1 h1 S st ctr).1.nodesMap
  have hmlc : duMapLinksCtr hubId trig rnd w2 h2 S
      (deltaUpdate hubId trig rnd w1 h1 S st ctr).1
      (deltaUpdate hubId trig rnd w1 h1 S st ctr).2.2 =
      ((deltaUpdate hubId trig rnd w1 h1 S st ctr).1.nodesMap ++ ext,
       (deltaUpdate hubId trig rnd w1 h1 S st ctr).1.links,
       (deltaUpdate hubId trig rnd w1 h1 S st ctr).2.2) := by
    unfold duMapLinksCtr
    rw [hdiff2]
    show (ensurePorts trig w2 h2 (duPorts S)
        (ensureHub hubId w2 h2 (deltaUpdate hubId trig rnd w1 h1 S st ctr).1.nodesMap),
        (deltaUpdate hubId trig rnd w1 h1 S st ctr).1.links,
        (deltaUpdate hubId trig rnd w1 h1 S st ctr).2.2) = _
    rw [hhub]
    unfold ensurePorts
    rw [hext]
  have hlinks2 : duLinks hubId trig rnd w2 h2 S
      (deltaUpdate hubId trig rnd w1 h1 S st ctr).1
      (deltaUpdate hubId trig rnd w1 h1 S st ctr).2.2 =
      (deltaUpdate hubId trig rnd w1 h1 S st ctr).1.links := by
    unfold duLinks
    rw [hdiff2, hmlc]
    show ensureHubLinks hubId (duPorts S)
        (deltaUpdate hubId trig rnd w1 h1 S st ctr).1.links = _
    apply ensureHubLinks_of_all
    intro p hp
    exact duLinks_hub_match hubId trig rnd w1 h1 S st ctr p hp
  have hports_not_used : ∀ kv ∈ ext,
      kv.1 ∉ usedNodeIds hubId (deltaUpdate hubId trig rnd w1 h1 S st ctr).1.links := by
    intro kv hkv hmem
    obtain ⟨hnone, htype, p, hp, hkid⟩ := hprop kv hkv
    have hM1 : (lookupA (portId p)
        (duMapLinksCtr hubId trig rnd w1 h1 S st ctr).1).isSome :=
      duMapLinksCtr_port_isSome hubId trig rnd w1 h1 S st ctr p hp
    have heq : lookupA kv.1 (deltaUpdate hubId trig rnd w1 h1 S st ctr).1.nodesMap =
        lookupA kv.1 (duMapLinksCtr hubId trig rnd w1 h1 S st ctr).1 := by
      show lookupA kv.1 (pruneNodes hubId (duLinks hubId trig rnd w1 h1 S st ctr)
        (duMapLinksCtr hubId trig rnd w1 h1 S st ctr).1) = _
      rw [lookupA_pruneNodes]
      exact if_pos hmem
    rw [hkid] at hnone heq
    rw [hnone] at heq
    rw [← heq] at hM1
    simp at hM1
  have hnodes2 : pruneNodes hubId
      (duLinks hubId trig rnd w2 h2 S (deltaUpdate hubId trig rnd w1 h1 S st ctr).1
        (deltaUpdate hubId trig rnd w1 h1 S st ctr).2.2)
      (duMapLinksCtr hubId trig rnd w2 h2 S (deltaUpdate hubId trig rnd w1 h1 S st ctr).1
        (deltaUpdate hubId trig rnd w1 h1 S st ctr).2.2).1 =
      (deltaUpdate hubId trig rnd w1 h1 S st ctr).1.nodesMap := by
    rw [hmlc, hlinks2]
    show pruneNodes hubId (deltaUpdate hubId trig rnd w1 h1 S st ctr).1.links
        ((deltaUpdate hubId trig rnd w1 h1 S st ctr).1.nodesMap ++ ext) = _
    rw [pruneNodes_append]
    have hA : pruneNodes hubId (deltaUpdate hubId trig rnd w1 h1 S st ctr).1.links
        (deltaUpdate hubId trig rnd w1 h1 S st ctr).1.nodesMap =
        (deltaUpdate hubId trig rnd w1 h1 S st ctr).1.nodesMap :=
      pruneNodes_idem hubId (duLinks hubId trig rnd w1 h1 S st ctr)
        (duMapLinksCtr hubId trig rnd w1 h1 S st ctr).1
    have hB : pruneNodes hubId (deltaUpdate hubId trig rnd w1 h1 S st ctr).1.links ext = [] :=
      pruneNodes_eq_nil _ _ _ hports_not_used
    rw [hA, hB, List.append_nil]
  refine ⟨hdiff2, ?_, ?_⟩
  · show (⟨pruneNodes hubId
        (duLinks hubId trig rnd w2 h2 S (deltaUpdate hubId trig rnd w1 h1 S st ctr).1
          (deltaUpdate hubId trig rnd w1 h1 S st ctr).2.2)
        (duMapLinksCtr hubId trig rnd w2 h2 S (deltaUpdate hubId trig rnd w1 h1 S st ctr).1
          (deltaUpdate hubId trig rnd w1 h1 S st ctr).2.2).1,
      duLinks hubId trig rnd w2 h2 S (deltaUpdate hubId trig rnd w1 h1 S st ctr).1
        (deltaUpdate hubId trig rnd w1 h1 S st ctr).2.2,
      S.filter notLoopback⟩ : GraphState) = _
    rw [hnodes2, hlinks2]
    rfl
  · show (duMapLinksCtr hubId trig rnd w2 h2 S (deltaUpdate hubId trig rnd w1 h1 S st ctr).1
        (deltaUpdate hubId trig rnd w1 h1 S st ctr).2.2).2.2 = _
    rw [hmlc]

/-! ### Loopback exclusion -/

theorem notLoopback_false {t : Conn}
    (hl : t.source = "127.0.0.1" ∨ t.target = "127.0.0.1") :
    notLoopback t = false := by
  unfold notLoopback
  rcases hl with h | h <;> simp [h]

theorem filter_drop_loopback (l1 l2 : List Conn) {t : Conn}
    (hl : t.source = "127.0.0.1" ∨ t.target = "127.0.0.1") :
    (l1 ++ t :: l2).filter notLoopback = (l1 ++ l2).filter notLoopback := by
  simp [List.filter_append, List.filter_cons, notLoopback_false hl]

/-- C9: a connection tuple whose source or target is `"127.0.0.1"` creates no
node and no edge: inserting such a tuple anywhere into the incoming snapshot
leaves the whole result of `_deltaUpdate` — in both variants of the card —
literally unchanged, because the normalizer removes it before diffing and
before any node or edge operation. -/
theorem C9_loopback_exclusion (hubId : String) (trig rnd : Nat → ℚ × ℚ) (w h : ℚ)
    (l1 l2 : List Conn) (t : Conn) (st : GraphState) (ctr : Nat)
    (pg : PGraph) (pctr : Nat)
    (hl : t.source = "127.0.0.1" ∨ t.target = "127.0.0.1") :
    deltaUpdate hubId trig rnd w h (l1 ++ t :: l2) st ctr =
      deltaUpdate hubId trig rnd w h (l1 ++ l2) st ctr ∧
    partCore hubId trig rnd w h (l1 ++ t :: l2) pg pctr =
      partCore hubId trig rnd w h (l1 ++ l2) pg pctr := by
  constructor
  · unfold deltaUpdate duLinks duMapLinksCtr duDiff duPorts
    rw [filter_drop_loopback l1 l2 hl]
  · unfold partCore
    rw [filter_drop_loopback l1 l2 hl]

/-- Witness for `C9_loopback_exclusion` at a concrete loopback tuple. -/
theorem C9_loopback_exclusion_witness :
    ((⟨"127.0.0.1", "8.8.8.8", 53⟩ : Conn).source = "127.0.0.1" ∨
      (⟨"127.0.0.1", "8.8.8.8", 53⟩ : Conn).target = "127.0.0.1") ∧
    (deltaUpdate "192.168.2.1" trig0 rnd0 1000 800
        ([] ++ (⟨"127.0.0.1", "8.8.8.8", 53⟩ : Conn) :: [⟨"10.0.0.2", "8.8.8.8", 443⟩])
        initGraph 0 =
      deltaUpdate "192.168.2.1" trig0 rnd0 1000 800
        ([] ++ [⟨"10.0.0.2", "8.8.8.8", 443⟩]) initGraph 0) :=
  ⟨Or.inl rfl,
   (C9_loopback_exclusion "192.168.2.1" trig0 rnd0 1000 800
      [] [⟨"10.0.0.2", "8.8.8.8", 443⟩] ⟨"127.0.0.1", "8.8.8.8", 53⟩
      initGraph 0 ⟨[], []⟩ 0 (Or.inl rfl)).1⟩

/-! ### Persistence round-trip -/

theorem lookupA_save (k : String) (m : NodeMap) :
    lookupA k (saveNodePositions m) =
      (lookupA k m).map (fun n => (⟨n.x, n.y, n.fx, n.fy⟩ : PosRec)) := by
  induction m with
  | nil => rfl
  | cons kv rest ih =>
    by_cases hk : kv.1 = k
    · simp [saveNodePositions, lookupA, hk]
    · simp only [saveNodePositions, List.map_cons, lookupA, hk, if_false] at ih ⊢
      exact ih

theorem save_keys (m : NodeMap) :
    (saveNodePositions m).map Prod.fst = m.map Prod.fst := by
  induction m with
  | nil => rfl
  | cons kv rest ih => simp [saveNodePositions, ih]

theorem lookupA_restore (saved : List (String × PosRec)) :
    ∀ (m : NodeMap) (k : String), (saved.map Prod.fst).Nodup →
      lookupA k (restoreNodePositions saved m) =
        match lookupA k saved with
        | some pos => (lookupA k m).map (applyPos pos)
        | none => lookupA k m := by
  induction saved with
  | nil => intro m k _; rfl
  | cons kv rest ih =>
    intro m k hnd
    rw [List.map_cons] at hnd
    obtain ⟨hnotmem, hnd2⟩ := List.nodup_cons.mp hnd
    show lookupA k (restoreNodePositions rest (mutateNode kv.1 (applyPos kv.2) m)) = _
    rw [ih _ k hnd2]
    by_cases hk : kv.1 = k
    · subst hk
      have hrest : lookupA kv.1 rest = none := by
        rw [lookupA_eq_none_iff]
        intro kv2 hkv2 hkk
        exact hnotmem (hkk ▸ List.mem_map_of_mem Prod.fst hkv2)
      rw [hrest]
      simp only [lookupA, if_pos rfl]
      exact lookupA_mutate_self _ m
    · rw [lookupA_mutate_ne hk]
      simp only [lookupA, hk, if_false]

/-- C8: saving positions for a node set and then restoring into a freshly
constructed node map reproduces, for every id present in both, exactly the
numeric `x, y, fx, fy` values that were saved (exactly, hence in particular
within floating-point tolerance), while fields that were missing in the
saved record are left untouched on the live node, never zeroed. -/
theorem C8_persistence_roundtrip (m fresh : NodeMap) (id : String) (n n2 : Node)
    (hnd : (m.map Prod.fst).Nodup)
    (hm : lookupA id m = some n) (hf : lookupA id fresh = some n2) :
    ∃ r, lookupA id (restoreNodePositions (saveNodePositions m) fresh) = some r ∧
      (n.x.isSome → r.x = n.x) ∧ (n.x = none → r.x = n2.x) ∧
      (n.y.isSome → r.y = n.y) ∧ (n.y = none → r.y = n2.y) ∧
      (n.fx.isSome → r.fx = n.fx) ∧ (n.fx = none → r.fx = n2.fx) ∧
      (n.fy.isSome → r.fy = n.fy) ∧ (n.fy = none → r.fy = n2.fy) := by
  have hndS : ((saveNodePositions m).map Prod.fst).Nodup := by
    rw [save_keys]; exact hnd
  refine ⟨applyPos ⟨n.x, n.y, n.fx, n.fy⟩ n2, ?_, ?_, ?_, ?_, ?_, ?_, ?_, ?_, ?_⟩
  · rw [lookupA_restore _ _ _ hndS, lookupA_save, hm, hf]
    rfl
  · intro hx
    obtain ⟨v, hv⟩ := Option.isSome_iff_exists.mp hx
    simp [applyPos, hv]
  · intro hx; simp [applyPos, hx]
  · intro hy
    obtain ⟨v, hv⟩ := Option.isSome_iff_exists.mp hy
    simp [applyPos, hv]
  · intro hy; simp [applyPos, hy]
  · intro hfx
    obtain ⟨v, hv⟩ := Option.isSome_iff_exists.mp hfx
    simp [applyPos, hv]
  · intro hfx; simp [applyPos, hfx]
  · intro hfy
    obtain ⟨v, hv⟩ := Option.isSome_iff_exists.mp hfy
    simp [applyPos, hv]
  · intro hfy; simp [applyPos, hfy]

/-- Witness for `C8_persistence_roundtrip`: one saved node with a numeric
`x` and `fx` and a missing `y` and `fy`, restored into a fresh map. -/
theorem C8_persistence_roundtrip_witness :
    (([("10.0.0.2", ({ id := "10.0.0.2", type := "ip", x := some 7, fx := some 9 } : Node))]
        : NodeMap).map Prod.fst).Nodup ∧
    lookupA "10.0.0.2"
      ([("10.0.0.2", ({ id := "10.0.0.2", type := "ip", x := some 7, fx := some 9 } : Node))]
        : NodeMap) = some { id := "10.0.0.2", type := "ip", x := some 7, fx := some 9 } ∧
    lookupA "10.0.0.2"
      ([("10.0.0.2", ({ id := "10.0.0.2", type := "ip", x := some 1, y := some 2 } : Node))]
        : NodeMap) = some { id := "10.0.0.2", type := "ip", x := some 1, y := some 2 } ∧
    ∃ r, lookupA "10.0.0.2"
        (restoreNodePositions
          (saveNodePositions
            [("10.0.0.2", { id := "10.0.0.2", type := "ip", x := some 7, fx := some 9 })])
          [("10.0.0.2", { id := "10.0.0.2", type := "ip", x := some 1, y := some 2 })]) =
        some r ∧
      ((some (7:ℚ)).isSome → r.x = some 7) ∧ ((some (7:ℚ)) = none → r.x = some 1) ∧
      ((none : Option ℚ).isSome → r.y = none) ∧ ((none : Option ℚ) = none → r.y = some 2) ∧
      ((some (9:ℚ)).isSome → r.fx = some 9) ∧ ((some (9:ℚ)) = none → r.fx = none) ∧
      ((none : Option ℚ).isSome → r.fy = none) ∧ ((none : Option ℚ) = none → r.fy = none) :=
  ⟨by decide, by decide, by decide,
   C8_persistence_roundtrip
     [("10.0.0.2", { id := "10.0.0.2", type := "ip", x := some 7, fx := some 9 })]
     [("10.0.0.2", { id := "10.0.0.2", type := "ip", x := some 1, y := some 2 })]
     "10.0.0.2"
     { id := "10.0.0.2", type := "ip", x := some 7, fx := some 9 }
     { id := "10.0.0.2", type := "ip", x := some 1, y := some 2 }
     (by decide) (by decide) (by decide)⟩

/-! ### Hub uniqueness and pin stability -/

theorem type_ne_hub_of_mutate {k : String} {f : Node → Node}
    (hf : ∀ n, (f n).type = n.type) {tail : NodeMap}
    (h : ∀ kv ∈ tail, kv.2.type ≠ "hub") :
    ∀ kv ∈ mutateNode k f tail, kv.2.type ≠ "hub" := by
  intro kv hkv
  obtain ⟨kv0, hkv0, heq⟩ := List.mem_map.mp hkv
  rw [← heq]
  by_cases ha : kv0.1 = k
  · simp only [ha, if_true]
    rw [hf kv0.2]
    exact h kv0 hkv0
  · simp only [ha, if_false]
    exact h kv0 hkv0

theorem mutateNode_cons_ne {k a : String} (hne : a ≠ k) (b : Node) (f : Node → Node)
    (rest : NodeMap) :
    mutateNode k f ((a, b) :: rest) = (a, b) :: mutateNode k f rest := by
  simp [mutateNode, hne]

theorem addIpEndpoint_hubOnly (rnd : Nat → ℚ × ℚ) (pid ipId hubId : String)
    (hn : Node) (mc : NodeMap × Nat) (tail : NodeMap)
    (hm : mc.1 = (hubId, hn) :: tail) (htail : ∀ kv ∈ tail, kv.2.type ≠ "hub") :
    ∃ tail2, (addIpEndpoint rnd pid ipId mc).1 = (hubId, hn) :: tail2 ∧
      ∀ kv ∈ tail2, kv.2.type ≠ "hub" := by
  unfold addIpEndpoint
  cases hlk : lookupA ipId mc.1 with
  | some v =>
    simp only [hlk, Option.isSome_some, if_true]
    exact ⟨tail, hm, htail⟩
  | none =>
    simp only [hlk, Option.isSome_none, Bool.false_eq_true, if_false]
    have hne : ipId ≠ hubId := by
      intro he
      rw [hm, he] at hlk
      simp [lookupA] at hlk
    have htail2 : ∀ kv ∈ tail ++ [(ipId, { id := ipId, type := "ip" : Node })],
        kv.2.type ≠ "hub" := by
      intro kv hkv
      rcases List.mem_append.mp hkv with hkv1 | hkv2
      · exact htail kv hkv1
      · rw [List.mem_singleton.mp hkv2]
        simp
    unfold placeIpNearPort
    cases hpp : lookupA pid (mc.1 ++ [(ipId, { id := ipId, type := "ip" : Node })]) with
    | none =>
      refine ⟨tail ++ [(ipId, { id := ipId, type := "ip" })], by rw [hm]; rfl, htail2⟩
    | some pn =>
      simp only
      rw [hm, List.cons_append, mutateNode_cons_ne (fun he => hne he.symm)]
      refine ⟨_, rfl, ?_⟩
      refine type_ne_hub_of_mutate ?_ htail2
      intro n
      rfl

theorem addedStep_hubOnly (rnd : Nat → ℚ × ℚ) (hubId : String) (hn : Node)
    (acc : NodeMap × List Link × Nat) (c : Conn) (tail : NodeMap)
    (hm : acc.1 = (hubId, hn) :: tail) (htail : ∀ kv ∈ tail, kv.2.type ≠ "hub") :
    ∃ tail2, (addedStep rnd acc c).1 = (hubId, hn) :: tail2 ∧
      ∀ kv ∈ tail2, kv.2.type ≠ "hub" := by
  obtain ⟨t1, h1, h1ok⟩ := addIpEndpoint_hubOnly rnd (portId c.port) c.source hubId hn
    (acc.1, acc.2.2) tail hm htail
  obtain ⟨t2, h2, h2ok⟩ := addIpEndpoint_hubOnly rnd (portId c.port) c.target hubId hn
    (addIpEndpoint rnd (portId c.port) c.source (acc.1, acc.2.2)) t1 h1 h1ok
  exact ⟨t2, h2, h2ok⟩

theorem processAdded_hubOnly (rnd : Nat → ℚ × ℚ) (hubId : String) (hn : Node) :
    ∀ (added : List Conn) (m : NodeMap) (links : List Link) (ctr : Nat) (tail : NodeMap),
      m = (hubId, hn) :: tail → (∀ kv ∈ tail, kv.2.type ≠ "hub") →
      ∃ tail2, (processAdded rnd added m links ctr).1 = (hubId, hn) :: tail2 ∧
        ∀ kv ∈ tail2, kv.2.type ≠ "hub" := by
  intro added
  induction added with
  | nil =>
    intro m links ctr tail hm htail
    exact ⟨tail, hm, htail⟩
  | cons c rest ih =>
    intro m links ctr tail hm htail
    obtain ⟨t1, h1, h1ok⟩ := addedStep_hubOnly rnd hubId hn (m, links, ctr) c tail hm htail
    exact ih (addedStep rnd (m, links, ctr) c).1 (addedStep rnd (m, links, ctr) c).2.1
      (addedStep rnd (m, links, ctr) c).2.2 t1 h1 h1ok

theorem pruneNodes_hubOnly (hubId : String) (links : List Link) (hn : Node)
    (tail : NodeMap) (htail : ∀ kv ∈ tail, kv.2.type ≠ "hub") :
    ∃ tail2, pruneNodes hubId links ((hubId, hn) :: tail) = (hubId, hn) :: tail2 ∧
      ∀ kv ∈ tail2, kv.2.type ≠ "hub" := by
  unfold pruneNodes
  rw [List.filter_cons]
  have hc : (decide ((hubId, hn).1 ∈ usedNodeIds hubId links)) = true :=
    decide_eq_true (hub_mem_usedNodeIds hubId links)
  simp only [hc, if_true]
  exact ⟨_, rfl, fun kv hkv => htail kv (List.mem_of_mem_filter hkv)⟩

theorem deltaUpdate_hubOnly (hubId : String) (trig rnd : Nat → ℚ × ℚ) (w h : ℚ)
    (S : List Conn) (st : GraphState) (ctr : Nat) (hn : Node) (tail : NodeMap)
    (hEH : ensureHub hubId w h st.nodesMap = (hubId, hn) :: tail)
    (htail : ∀ kv ∈ tail, kv.2.type ≠ "hub") :
    ∃ tail2, (deltaUpdate hubId trig rnd w h S st ctr).1.nodesMap = (hubId, hn) :: tail2 ∧
      ∀ kv ∈ tail2, kv.2.type ≠ "hub" := by
  obtain ⟨ext, hext, hprop⟩ := ensurePortsAux_shape trig w h 0 (duPorts S)
    (ensureHub hubId w h st.nodesMap)
  have hEP : ensurePorts trig w h (duPorts S) (ensureHub hubId w h st.nodesMap) =
      (hubId, hn) :: (tail ++ ext) := by
    unfold ensurePorts
    rw [hext, hEH]
    rfl
  have htailext : ∀ kv ∈ tail ++ ext, kv.2.type ≠ "hub" := by
    intro kv hkv
    rcases List.mem_append.mp hkv with h1 | h2
    · exact htail kv h1
    · obtain ⟨_, ht, _⟩ := hprop kv h2
      rw [ht]
      decide
  obtain ⟨t3, h3, h3ok⟩ := processAdded_hubOnly rnd hubId hn (duDiff S st).added
    (ensurePorts trig w h (duPorts S) (ensureHub hubId w h st.nodesMap))
    st.links ctr (tail ++ ext) hEP htailext
  show ∃ tail2, pruneNodes hubId (duLinks hubId trig rnd w h S st ctr)
      (duMapLinksCtr hubId trig rnd w h S st ctr).1 = (hubId, hn) :: tail2 ∧ _
  unfold duMapLinksCtr
  rw [h3]
  exact pruneNodes_hubOnly hubId _ hn t3 h3ok

theorem ensureHub_of_head (hubId : String) (w h : ℚ) (hn : Node) (tail : NodeMap) :
    ensureHub hubId w h ((hubId, hn) :: tail) = (hubId, hn) :: tail := by
  unfold ensureHub
  simp [lookupA]

theorem foldl_applyCycle_hubOnly (hubId : String) (trig rnd : Nat → ℚ × ℚ) (hn : Node) :
    ∀ (us : List UpdateCycle) (sc : GraphState × Nat) (tail : NodeMap),
      sc.1.nodesMap = (hubId, hn) :: tail → (∀ kv ∈ tail, kv.2.type ≠ "hub") →
      ∃ tail2, (us.foldl (applyCycle hubId trig rnd) sc).1.nodesMap = (hubId, hn) :: tail2 ∧
        ∀ kv ∈ tail2, kv.2.type ≠ "hub" := by
  intro us
  induction us with
  | nil => intro sc tail hm htail; exact ⟨tail, hm, htail⟩
  | cons u rest ih =>
    intro sc tail hm htail
    have hEH : ensureHub hubId u.w u.h sc.1.nodesMap = (hubId, hn) :: tail := by
      rw [hm]
      exact ensureHub_of_head hubId u.w u.h hn tail
    obtain ⟨t2, h2, h2ok⟩ := deltaUpdate_hubOnly hubId trig rnd u.w u.h u.snapshot
      sc.1 sc.2 hn tail hEH htail
    exact ih (applyCycle hubId trig rnd sc u) t2 h2 h2ok

/-- C2: starting from a fresh card, after any sequence of update cycles at
least one of which carries a non-empty snapshot, the node map contains
exactly one node of kind `hub`, stored under the configured hub id, and its
pinned coordinates are the viewport center `(w/2, h/2)` of the very first
cycle — the cycle at which the hub was created — regardless of the viewport
sizes of all later cycles. -/
theorem C2_hub_invariant (hubId : String) (trig rnd : Nat → ℚ × ℚ)
    (u : UpdateCycle) (rest : List UpdateCycle)
    (hne : ∃ v ∈ u :: rest, v.snapshot ≠ []) :
    (runUpdates hubId trig rnd (u :: rest)).1.nodesMap.filter
        (fun kv => decide (kv.2.type = "hub")) = [(hubId, hubNode hubId u.w u.h)] ∧
    lookupA hubId (runUpdates hubId trig rnd (u :: rest)).1.nodesMap =
      some (hubNode hubId u.w u.h) ∧
    (hubNode hubId u.w u.h).fx = some (u.w / 2) ∧
    (hubNode hubId u.w u.h).fy = some (u.h / 2) := by
  clear hne
  have hEH : ensureHub hubId u.w u.h initGraph.nodesMap =
      (hubId, hubNode hubId u.w u.h) :: [] := rfl
  obtain ⟨t1, h1, h1ok⟩ := deltaUpdate_hubOnly hubId trig rnd u.w u.h u.snapshot
    initGraph 0 (hubNode hubId u.w u.h) [] hEH (by simp)
  obtain ⟨t2, h2, h2ok⟩ := foldl_applyCycle_hubOnly hubId trig rnd (hubNode hubId u.w u.h)
    rest (applyCycle hubId trig rnd (initGraph, 0) u) t1 h1 h1ok
  have hrun : (runUpdates hubId trig rnd (u :: rest)).1.nodesMap =
      (hubId, hubNode hubId u.w u.h) :: t2 := h2
  refine ⟨?_, ?_, rfl, rfl⟩
  · rw [hrun, List.filter_cons]
    have hc : (decide ((hubId, hubNode hubId u.w u.h).2.type = "hub")) = true := rfl
    simp only [hc, if_true]
    rw [List.filter_eq_nil_iff.mpr]
    intro kv hkv
    simpa using h2ok kv hkv
  · rw [hrun]
    simp [lookupA]

/-- Witness for `C2_hub_invariant`: two cycles with different viewports, the
first non-empty. -/
theorem C2_hub_invariant_witness :
    (∃ v ∈ [(⟨[⟨"10.0.0.2", "8.8.8.8", 443⟩], 1000, 800⟩ : UpdateCycle),
            ⟨[], 640, 480⟩], v.snapshot ≠ []) ∧
    ((runUpdates "192.168.2.1" trig0 rnd0
        [⟨[⟨"10.0.0.2", "8.8.8.8", 443⟩], 1000, 800⟩, ⟨[], 640, 480⟩]).1.nodesMap.filter
          (fun kv => decide (kv.2.type = "hub")) =
        [("192.168.2.1", hubNode "192.168.2.1" 1000 800)] ∧
      lookupA "192.168.2.1"
        (runUpdates "192.168.2.1" trig0 rnd0
          [⟨[⟨"10.0.0.2", "8.8.8.8", 443⟩], 1000, 800⟩, ⟨[], 640, 480⟩]).1.nodesMap =
        some (hubNode "192.168.2.1" 1000 800) ∧
      (hubNode "192.168.2.1" 1000 800).fx = some (1000 / 2) ∧
      (hubNode "192.168.2.1" 1000 800).fy = some (800 / 2)) :=
  ⟨⟨⟨[⟨"10.0.0.2", "8.8.8.8", 443⟩], 1000, 800⟩, List.mem_cons_self _ _, by decide⟩,
   C2_hub_invariant "192.168.2.1" trig0 rnd0 ⟨[⟨"10.0.0.2", "8.8.8.8", 443⟩], 1000, 800⟩
     [⟨[], 640, 480⟩]
     ⟨⟨[⟨"10.0.0.2", "8.8.8.8", 443⟩], 1000, 800⟩, List.mem_cons_self _ _, by decide⟩⟩

/-! ### Position restore: read once, applied before the first simulation seed -/

theorem foldl_part_flag (saved : List (String × PosRec)) (hubId : String)
    (trig rnd : Nat → ℚ × ℚ) :
    ∀ (us : List UpdateCycle) (e : PEngine), e.positionsRestored = true →
      (us.foldl (fun e2 u => partDeltaUpdate saved hubId trig rnd u.w u.h u.snapshot e2)
          e).positionsRestored = true ∧
      (us.foldl (fun e2 u => partDeltaUpdate saved hubId trig rnd u.w u.h u.snapshot e2)
          e).storageReads = e.storageReads := by
  intro us
  induction us with
  | nil => intro e he; exact ⟨he, rfl⟩
  | cons u rest ih =>
    intro e he
    simp only [List.foldl_cons]
    have hstep : partDeltaUpdate saved hubId trig rnd u.w u.h u.snapshot e =
        ⟨(partCore hubId trig rnd u.w u.h u.snapshot e.g e.ctr).1, true, e.storageReads,
         (partCore hubId trig rnd u.w u.h u.snapshot e.g e.ctr).2⟩ := by
      unfold partDeltaUpdate
      rw [he]
      rfl
    have := ih (partDeltaUpdate saved hubId trig rnd u.w u.h u.snapshot e)
      (by rw [hstep])
    rcases this with ⟨hflag, hreads⟩
    refine ⟨hflag, ?_⟩
    rw [hreads, hstep]

/-- C6: in the variant that restores positions (`src/unnamed/part_001`), the
persisted positions are read exactly once, at the first data arrival: the
first `_deltaUpdate` cycle performs the single storage read, every later
cycle performs none, and on that first cycle the node map handed to the
simulation is the freshly built map with the stored record already applied —
for every id present in both the stored record and the live map, the stored
numeric `x, y, fx, fy` are applied to that node before the simulation is
seeded. -/
theorem C6_restore_read_once (saved : List (String × PosRec)) (hubId : String)
    (trig rnd : Nat → ℚ × ℚ) (u : UpdateCycle) (rest : List UpdateCycle)
    (hnd : (saved.map Prod.fst).Nodup) :
    (partDeltaUpdate saved hubId trig rnd u.w u.h u.snapshot initPEngine).storageReads = 1 ∧
    (runPart saved hubId trig rnd (u :: rest)).storageReads = 1 ∧
    (runPart saved hubId trig rnd (u :: rest)).positionsRestored = true ∧
    (partDeltaUpdate saved hubId trig rnd u.w u.h u.snapshot initPEngine).g.nodesMap =
      restoreNodePositions saved
        (partCore hubId trig rnd u.w u.h u.snapshot initPEngine.g
          initPEngine.ctr).1.nodesMap ∧
    (∀ (id : String) (pos : PosRec) (n : Node), lookupA id saved = some pos →
      lookupA id (partCore hubId trig rnd u.w u.h u.snapshot initPEngine.g
          initPEngine.ctr).1.nodesMap = some n →
      lookupA id (partDeltaUpdate saved hubId trig rnd u.w u.h u.snapshot
          initPEngine).g.nodesMap = some (applyPos pos n)) := by
  have hfirst : partDeltaUpdate saved hubId trig rnd u.w u.h u.snapshot initPEngine =
      ⟨⟨restoreNodePositions saved
          (partCore hubId trig rnd u.w u.h u.snapshot initPEngine.g
            initPEngine.ctr).1.nodesMap,
        (partCore hubId trig rnd u.w u.h u.snapshot initPEngine.g
            initPEngine.ctr).1.links⟩,
       true, 1,
       (partCore hubId trig rnd u.w u.h u.snapshot initPEngine.g initPEngine.ctr).2⟩ :=
    rfl
  obtain ⟨hflag, hreads⟩ := foldl_part_flag saved hubId trig rnd rest
    (partDeltaUpdate saved hubId trig rnd u.w u.h u.snapshot initPEngine)
    (by rw [hfirst])
  refine ⟨by rw [hfirst], ?_, hflag, by rw [hfirst], ?_⟩
  · show (rest.foldl (fun e2 v => partDeltaUpdate saved hubId trig rnd v.w v.h v.snapshot e2)
        (partDeltaUpdate saved hubId trig rnd u.w u.h u.snapshot initPEngine)).storageReads = 1
    rw [hreads, hfirst]
  · intro id pos n hpos hn
    rw [hfirst]
    show lookupA id (restoreNodePositions saved _) = _
    rw [lookupA_restore saved _ id hnd, hpos, hn]
    rfl

/-- Witness for `C6_restore_read_once`: a stored record for one IP node,
restored during the first of two cycles. -/
theorem C6_restore_read_once_witness :
    (((([("10.0.0.2", (⟨some 1, some 2, none, none⟩ : PosRec))]).map Prod.fst).Nodup) ∧
      (partDeltaUpdate [("10.0.0.2", ⟨some 1, some 2, none, none⟩)] "192.168.2.1"
        trig0 rnd0 (1000:ℚ) (800:ℚ) [⟨"10.0.0.2", "8.8.8.8", 443⟩]
        initPEngine).storageReads = 1) := by
  constructor
  · decide
  · exact (C6_restore_read_once [("10.0.0.2", ⟨some 1, some 2, none, none⟩)]
      "192.168.2.1" trig0 rnd0 ⟨[⟨"10.0.0.2", "8.8.8.8", 443⟩], 1000, 800⟩ []
      (by decide)).1

/-! ### Scenario A then B: what survives an empty snapshot -/

/-- Counterexample to C1: in the diff-based variant
(`src/network-connections-card.js`), after one update with the snapshot
`[{source:"10.0.0.2", target:"8.8.8.8", port:443}]` followed by one update
with the empty snapshot, the port node `port-443` is still in the node map
and the edge list still holds the `hub → port-443` edge — the removed-tuple
pass only deletes the two IP↔port edge keys, and no pass ever removes a
stale hub→port edge, so the port node stays referenced and survives pruning.
The claim's expected result (hub only, no edges) is therefore false. -/
theorem C1_counterexample :
    (runUpdates "192.168.2.1" trig0 rnd0
        [⟨[⟨"10.0.0.2", "8.8.8.8", 443⟩], 1000, 800⟩, ⟨[], 1000, 800⟩]).1.nodesMap.map
          Prod.fst = ["192.168.2.1", "port-443"] ∧
    (runUpdates "192.168.2.1" trig0 rnd0
        [⟨[⟨"10.0.0.2", "8.8.8.8", 443⟩], 1000, 800⟩, ⟨[], 1000, 800⟩]).1.links =
      [⟨"192.168.2.1", "port-443"⟩] ∧
    (runUpdates "192.168.2.1" trig0 rnd0
        [⟨[⟨"10.0.0.2", "8.8.8.8", 443⟩], 1000, 800⟩, ⟨[], 1000, 800⟩]).1.links ≠ [] ∧
    (lookupA "port-443"
        (runUpdates "192.168.2.1" trig0 rnd0
          [⟨[⟨"10.0.0.2", "8.8.8.8", 443⟩], 1000, 800⟩,
           ⟨[], 1000, 800⟩]).1.nodesMap).isSome = true := by
  decide

/-- C1 amended: after Scenario A's snapshot is replaced by `[]`, the
diff-based variant prunes both IP nodes and removes both IP↔port edges, but
keeps the `port-443` node and the single `hub → port-443` edge (the hub→port
edge is never removed, so the port node stays referenced); the sync-based
variant (`src/unnamed/part_001`, whose `_syncNodesAndLinks` drops every link
absent from the rebuilt link list) is the one that matches the original
claim: only the hub remains and the edge list is empty. -/
theorem C1_amended_stale_port :
    (runUpdates "192.168.2.1" trig0 rnd0
        [⟨[⟨"10.0.0.2", "8.8.8.8", 443⟩], 1000, 800⟩, ⟨[], 1000, 800⟩]).1.nodesMap.map
          Prod.fst = ["192.168.2.1", "port-443"] ∧
    (runUpdates "192.168.2.1" trig0 rnd0
        [⟨[⟨"10.0.0.2", "8.8.8.8", 443⟩], 1000, 800⟩, ⟨[], 1000, 800⟩]).1.links =
      [⟨"192.168.2.1", "port-443"⟩] ∧
    (runPart [] "192.168.2.1" trig0 rnd0
        [⟨[⟨"10.0.0.2", "8.8.8.8", 443⟩], 1000, 800⟩, ⟨[], 1000, 800⟩]).g.nodesMap.map
          Prod.fst = ["192.168.2.1"] ∧
    (runPart [] "192.168.2.1" trig0 rnd0
        [⟨[⟨"10.0.0.2", "8.8.8.8", 443⟩], 1000, 800⟩, ⟨[], 1000, 800⟩]).g.links = [] := by
  decide

/-! ### Edge removal by endpoint-pair identity -/

theorem processRemoved_subset :
    ∀ (rs : List Conn) (links : List Link) (l : Link),
      l ∈ processRemoved rs links → l ∈ links := by
  intro rs
  induction rs with
  | nil => intro links l hl; exact hl
  | cons q rest ih =>
    intro links l hl
    have h2 : l ∈ removedStep links q := ih (removedStep links q) l hl
    exact List.mem_of_mem_filter h2

theorem removedStep_no_key (links : List Link) (c : Conn) :
    ∀ l ∈ removedStep links c,
      linkKey l ≠ c.source ++ "->" ++ portId c.port ∧
      linkKey l ≠ portId c.port ++ "->" ++ c.target := by
  intro l hl
  have hp := List.of_mem_filter hl
  simp only [Bool.and_eq_true, bne_iff_ne] at hp
  exact hp

theorem processRemoved_no_key :
    ∀ (rs : List Conn) (links : List Link) (r : Conn), r ∈ rs →
      ∀ l ∈ processRemoved rs links,
        linkKey l ≠ r.source ++ "->" ++ portId r.port ∧
        linkKey l ≠ portId r.port ++ "->" ++ r.target := by
  intro rs
  induction rs with
  | nil => intro links r hr; simp at hr
  | cons q rest ih =>
    intro links r hr l hl
    rcases List.mem_cons.mp hr with rfl | hr2
    · have h2 : l ∈ removedStep links r := processRemoved_subset rest _ l hl
      exact removedStep_no_key links r l h2
    · exact ih (removedStep links q) r hr2 l hl

theorem hubLinkStep_mem {hubId : String} {links : List Link} {p : Nat} {l : Link}
    (hl : l ∈ hubLinkStep hubId links p) : l ∈ links ∨ l.source = hubId := by
  unfold hubLinkStep at hl
  split at hl
  · exact Or.inl hl
  · rcases List.mem_append.mp hl with h1 | h2
    · exact Or.inl h1
    · rw [List.mem_singleton.mp h2]
      exact Or.inr rfl

theorem ensureHubLinks_mem {hubId : String} :
    ∀ (ps : List Nat) (links : List Link) (l : Link),
      l ∈ ensureHubLinks hubId ps links → l ∈ links ∨ l.source = hubId := by
  intro ps
  induction ps with
  | nil => intro links l hl; exact Or.inl hl
  | cons q rest ih =>
    intro links l hl
    rcases ih (hubLinkStep hubId links q) l hl with h1 | h2
    · exact hubLinkStep_mem h1
    · exact Or.inr h2

/-- C10 amended: edge removal is by endpoint-pair identity and is not
reference-counted.  For every removed tuple `(s, t, p)`, no edge with
endpoints `(s, port-p)` or `(port-p, t)` survives the cycle — including
duplicate copies and edges still implied by other current tuples — except
that when `s` is the hub id itself (resp. when `port-p` is the hub id) the
hub-link pass of the same cycle re-adds the `hub → port-p` edge for a still
current port.  In particular, after removing one of two current tuples that
share their (non-hub) source IP and port, the surviving tuple's source→port
edge is absent from the edge list. -/
theorem C10_amended_removal_by_identity :
    (∀ (hubId : String) (trig rnd : Nat → ℚ × ℚ) (w h : ℚ) (S : List Conn)
        (st : GraphState) (ctr : Nat) (r : Conn), r ∈ (duDiff S st).removed →
      ∀ l ∈ (deltaUpdate hubId trig rnd w h S st ctr).1.links,
        (r.source ≠ hubId → ¬(l.source = r.source ∧ l.target = portId r.port)) ∧
        (portId r.port ≠ hubId → ¬(l.source = portId r.port ∧ l.target = r.target))) ∧
    ((⟨"10.0.0.2", "port-443"⟩ : Link) ∉
      (runUpdates "192.168.2.1" trig0 rnd0
        [⟨[⟨"10.0.0.2", "8.8.8.8", 443⟩, ⟨"10.0.0.2", "9.9.9.9", 443⟩], 1000, 1000⟩,
         ⟨[⟨"10.0.0.2", "9.9.9.9", 443⟩], 1000, 1000⟩]).1.links ∧
     (runUpdates "192.168.2.1" trig0 rnd0
        [⟨[⟨"10.0.0.2", "8.8.8.8", 443⟩, ⟨"10.0.0.2", "9.9.9.9", 443⟩], 1000, 1000⟩,
         ⟨[⟨"10.0.0.2", "9.9.9.9", 443⟩], 1000, 1000⟩]).1.links =
       [⟨"port-443", "9.9.9.9"⟩, ⟨"192.168.2.1", "port-443"⟩]) := by
  constructor
  · intro hubId trig rnd w h S st ctr r hr l hl
    have hmem : l ∈ processRemoved (duDiff S st).removed
        (duMapLinksCtr hubId trig rnd w h S st ctr).2.1 ∨ l.source = hubId :=
      ensureHubLinks_mem (duPorts S) _ l hl
    rcases hmem with h1 | h2
    · obtain ⟨hk1, hk2⟩ := processRemoved_no_key (duDiff S st).removed _ r hr l h1
      constructor
      · intro _ hpair
        exact hk1 (by rw [linkKey, hpair.1, hpair.2])
      · intro _ hpair
        exact hk2 (by rw [linkKey, hpair.1, hpair.2])
    · constructor
      · intro hs hpair
        exact hs (by rw [← hpair.1, h2])
      · intro hp hpair
        exact hp (by rw [← hpair.1, h2])
  · constructor
    · decide
    · decide

/-- Witness for `C10_amended_removal_by_identity`: the general part applied
to the concrete shared-source scenario, where the tuple
`("10.0.0.2","8.8.8.8",443)` is removed while `("10.0.0.2","9.9.9.9",443)`
stays current, for the hub link, the one surviving edge. -/
theorem C10_amended_removal_by_identity_witness :
    ((⟨"10.0.0.2", "8.8.8.8", 443⟩ : Conn) ∈
      (duDiff [⟨"10.0.0.2", "9.9.9.9", 443⟩]
        (runUpdates "192.168.2.1" trig0 rnd0
          [⟨[⟨"10.0.0.2", "8.8.8.8", 443⟩, ⟨"10.0.0.2", "9.9.9.9", 443⟩],
            1000, 1000⟩]).1).removed) ∧
    ((⟨"192.168.2.1", "port-443"⟩ : Link) ∈
      (deltaUpdate "192.168.2.1" trig0 rnd0 1000 1000 [⟨"10.0.0.2", "9.9.9.9", 443⟩]
        (runUpdates "192.168.2.1" trig0 rnd0
          [⟨[⟨"10.0.0.2", "8.8.8.8", 443⟩, ⟨"10.0.0.2", "9.9.9.9", 443⟩],
            1000, 1000⟩]).1
        (runUpdates "192.168.2.1" trig0 rnd0
          [⟨[⟨"10.0.0.2", "8.8.8.8", 443⟩, ⟨"10.0.0.2", "9.9.9.9", 443⟩],
            1000, 1000⟩]).2).1.links) ∧
    ¬((⟨"192.168.2.1", "port-443"⟩ : Link).source = "10.0.0.2" ∧
      (⟨"192.168.2.1", "port-443"⟩ : Link).target = portId 443) :=
  ⟨by decide, by decide,
   ((C10_amended_removal_by_identity.1 "192.168.2.1" trig0 rnd0 1000 1000
      [⟨"10.0.0.2", "9.9.9.9", 443⟩]
      (runUpdates "192.168.2.1" trig0 rnd0
        [⟨[⟨"10.0.0.2", "8.8.8.8", 443⟩, ⟨"10.0.0.2", "9.9.9.9", 443⟩], 1000, 1000⟩]).1
      (runUpdates "192.168.2.1" trig0 rnd0
        [⟨[⟨"10.0.0.2", "8.8.8.8", 443⟩, ⟨"10.0.0.2", "9.9.9.9", 443⟩], 1000, 1000⟩]).2
      ⟨"10.0.0.2", "8.8.8.8", 443⟩ (by decide) ⟨"192.168.2.1", "port-443"⟩
      (by decide)).1 (by decide))⟩

/-- Counterexample to C10 as stated: when the removed tuple's source is the
hub id itself (a connection originating at the hub address), the tuple
`("192.168.2.1", "1.2.3.4", 80)` is removed on the second cycle, yet the
final edge list does contain an edge whose endpoints read as
`(source, port-80)` — the hub-link pass re-added `hub → port-80` because
port 80 is still current — so "no such edge is re-added in the same cycle"
fails. -/
theorem C10_counterexample :
    ((⟨"192.168.2.1", "1.2.3.4", 80⟩ : Conn) ∈
      (duDiff [⟨"5.6.7.8", "9.9.9.9", 80⟩]
        (runUpdates "192.168.2.1" trig0 rnd0
          [⟨[⟨"192.168.2.1", "1.2.3.4", 80⟩, ⟨"5.6.7.8", "9.9.9.9", 80⟩],
            1000, 1000⟩]).1).removed) ∧
    ((⟨"192.168.2.1", "port-80"⟩ : Link) ∈
      (runUpdates "192.168.2.1" trig0 rnd0
        [⟨[⟨"192.168.2.1", "1.2.3.4", 80⟩, ⟨"5.6.7.8", "9.9.9.9", 80⟩], 1000, 1000⟩,
         ⟨[⟨"5.6.7.8", "9.9.9.9", 80⟩], 1000, 1000⟩]).1.links) ∧
    (⟨"192.168.2.1", "port-80"⟩ : Link).source = (⟨"192.168.2.1", "1.2.3.4", 80⟩ : Conn).source ∧
    (⟨"192.168.2.1", "port-80"⟩ : Link).target = portId (⟨"192.168.2.1", "1.2.3.4", 80⟩ : Conn).port := by
  refine ⟨by decide, by decide, rfl, by decide⟩

/-! ### Star layout placement -/

theorem ensurePortsAux_creates (trig : Nat → ℚ × ℚ) (w h : ℚ) :
    ∀ (ps : List Nat) (i k : Nat) (m : NodeMap) (p : Nat),
      ps.get? i = some p →
      (∀ j q, j < i → ps.get? j = some q → portId q ≠ portId p) →
      lookupA (portId p) m = none →
      lookupA (portId p) (ensurePortsAux trig w h k ps m) =
        some (portNode trig w h p (k + i)) := by
  intro ps
  induction ps with
  | nil => intro i k m p hget; simp [List.get?] at hget
  | cons q rest ih =>
    intro i k m p hget hdis hnone
    cases i with
    | zero =>
      have hq : q = p := by simpa [List.get?] using hget
      subst hq
      show lookupA (portId q)
        (ensurePortsAux trig w h (k + 1) rest
          (if (lookupA (portId q) m).isSome then m
           else m ++ [(portId q, portNode trig w h q k)])) = _
      rw [hnone]
      simp only [Option.isSome_none, Bool.false_eq_true, if_false]
      rw [ensurePortsAux_pres_some _ _ _ (lookupA_singleton_self hnone)]
      rw [Nat.add_zero]
    | succ j =>
      have hgr : rest.get? j = some p := hget
      have hqp : portId q ≠ portId p :=
        hdis 0 q (Nat.succ_pos j) rfl
      show lookupA (portId p)
        (ensurePortsAux trig w h (k + 1) rest
          (if (lookupA (portId q) m).isSome then m
           else m ++ [(portId q, portNode trig w h q k)])) = _
      have hnone2 : lookupA (portId p)
          (if (lookupA (portId q) m).isSome then m
           else m ++ [(portId q, portNode trig w h q k)]) = none := by
        split
        · exact hnone
        · rw [lookupA_append_of_none _ hnone]
          simp [lookupA, hqp]
      have hdis2 : ∀ j2 q2, j2 < j → rest.get? j2 = some q2 → portId q2 ≠ portId p :=
        fun j2 q2 hlt hg => hdis (j2 + 1) q2 (Nat.succ_lt_succ hlt) hg
      rw [ih j (k + 1) _ p hgr hdis2 hnone2]
      have harith : k + 1 + j = k + (j + 1) := by omega
      rw [harith]

/-- C4 amended: during one update cycle with viewport `(w, h)`, the port at
index `i` of the sequence of distinct port numbers of the current snapshot
(first-appearance order), if its node does not yet exist, is created pinned
at the *current viewport center* `(w/2, h/2)` — not at the hub's recorded
center, which can differ when the viewport has changed since the hub was
created — plus `(cos a, sin a) · r` with `a = (2π/8)·(i mod 8)` and
`r = (min(w,h)·0.3 + ⌊i/8⌋·150)` scaled by `1.0` for even and `0.5` for odd
`i mod 8`; the placement is a deterministic function of `(i, w, h)` (given
the trigonometry backend), and re-running the builder for a port whose node
already exists leaves its pin (indeed the whole node) unchanged.  The
distinctness side condition on generated port ids always holds since the
ports listed are distinct numbers. -/
theorem C4_amended_star_layout :
    (∀ (trig : Nat → ℚ × ℚ) (w h : ℚ) (S : List Conn) (m : NodeMap) (i p : Nat),
      (duPorts S).get? i = some p →
      (∀ j q, j < i → (duPorts S).get? j = some q → portId q ≠ portId p) →
      lookupA (portId p) m = none →
      lookupA (portId p) (ensurePorts trig w h (duPorts S) m) =
        some (portNode trig w h p i)) ∧
    (∀ (trig : Nat → ℚ × ℚ) (w h : ℚ) (ports : List Nat) (m : NodeMap)
        (pid : String) (n : Node), lookupA pid m = some n →
      lookupA pid (ensurePorts trig w h ports m) = some n) ∧
    (∀ (trig : Nat → ℚ × ℚ) (w h : ℚ) (p i : Nat),
      (portNode trig w h p i).fx = some (w / 2 + (trig (i % 8)).1 * starRadius w h i) ∧
      (portNode trig w h p i).fy = some (h / 2 + (trig (i % 8)).2 * starRadius w h i) ∧
      starRadius w h i = (if i % 8 % 2 = 0
        then (min w h * (3 / 10) + ((i / 8 : Nat) : ℚ) * 150) * 1
        else (min w h * (3 / 10) + ((i / 8 : Nat) : ℚ) * 150) * (1 / 2))) := by
  refine ⟨?_, ?_, ?_⟩
  · intro trig w h S m i p hget hdis hnone
    have hcr := ensurePortsAux_creates trig w h (duPorts S) i 0 m p hget hdis hnone
    rw [Nat.zero_add] at hcr
    exact hcr
  · intro trig w h ports m pid n hn
    exact ensurePorts_pres_some hn
  · intro trig w h p i
    exact ⟨rfl, rfl, rfl⟩

/-- Witness for `C4_amended_star_layout`: the single port 7 of a one-tuple
snapshot is created at index 0 with the star placement for the 200×200
viewport. -/
theorem C4_amended_star_layout_witness :
    ((duPorts [⟨"10.0.0.9", "8.8.4.4", 7⟩]).get? 0 = some 7) ∧
    lookupA (portId 7)
        (ensurePorts trig0 200 200 (duPorts [⟨"10.0.0.9", "8.8.4.4", 7⟩]) []) =
      some (portNode trig0 200 200 7 0) :=
  ⟨by decide,
   C4_amended_star_layout.1 trig0 200 200 [⟨"10.0.0.9", "8.8.4.4", 7⟩] [] 0 7
     (by decide)
     (fun j q hlt _ => absurd hlt (by omega))
     (by decide)⟩

/-- Counterexample to C4 as stated: create the hub during a first cycle at
viewport 100×100 (hub pinned at `(50, 50)`), then let a second cycle at
viewport 200×200 create port 7 at index 0.  The code pins the port at the
*current* viewport center plus the star offset — `(100 + 1·60, 100)` =
`(160, 100)` under the concrete backend with `cos 0 = 1` — whereas the
claim's "hub center plus `(cos a, sin a)·r`" would give `50 + 1·60 = 110`;
`160 ≠ 110`, so the claim's placement formula is false when the viewport has
changed since hub creation. -/
theorem C4_counterexample :
    lookupA "port-7" (runUpdates "192.168.2.1" trig0 rnd0
        [⟨[], 100, 100⟩, ⟨[⟨"10.0.0.9", "8.8.4.4", 7⟩], 200, 200⟩]).1.nodesMap =
      some (portNode trig0 200 200 7 0) ∧
    lookupA "192.168.2.1" (runUpdates "192.168.2.1" trig0 rnd0
        [⟨[], 100, 100⟩, ⟨[⟨"10.0.0.9", "8.8.4.4", 7⟩], 200, 200⟩]).1.nodesMap =
      some (hubNode "192.168.2.1" 100 100) ∧
    (portNode trig0 200 200 7 0).fx = some 160 ∧
    (hubNode "192.168.2.1" 100 100).fx = some 50 ∧
    (trig0 0).1 = 1 ∧ starRadius 200 200 0 = 60 ∧
    ((160 : ℚ) ≠ 50 + 1 * 60) := by
  refine ⟨rfl, rfl, ?_, ?_, rfl, ?_, ?_⟩
  · show some ((starPlacement trig0 200 200 0).1) = some (160 : ℚ)
    norm_num [starPlacement, starRadius, trig0]
  · show some ((100 : ℚ) / 2) = some (50 : ℚ)
    norm_num
  · show starRadius 200 200 0 = (60 : ℚ)
    norm_num [starRadius]
  · norm_num

/-! ### Infrastructure for the new-port scenario -/

theorem string_append_left_cancel {s a b : String} (h : s ++ a = s ++ b) : a = b := by
  have hd : (s ++ a).data = (s ++ b).data := by rw [h]
  rw [String.data_append, String.data_append] at hd
  exact String.ext (List.append_cancel_left hd)

theorem foldl_used_acc :
    ∀ (links : List Link) (acc : List String),
      links.foldl (fun s l => s ++ [l.source, l.target]) acc =
        acc ++ links.foldl (fun s l => s ++ [l.source, l.target]) [] := by
  intro links
  induction links with
  | nil => intro acc; simp
  | cons l rest ih =>
    intro acc
    show rest.foldl _ (acc ++ [l.source, l.target]) = acc ++ rest.foldl _ ([] ++ [l.source, l.target])
    rw [ih (acc ++ [l.source, l.target]), ih ([] ++ [l.source, l.target])]
    simp

theorem mem_usedFlat :
    ∀ (links : List Link) (x : String),
      x ∈ links.foldl (fun s l => s ++ [l.source, l.target]) [] ↔
        ∃ l ∈ links, x = l.source ∨ x = l.target := by
  intro links
  induction links with
  | nil => intro x; simp
  | cons l rest ih =>
    intro x
    simp only [List.foldl_cons]
    rw [foldl_used_acc rest ([] ++ [l.source, l.target])]
    constructor
    · intro hx
      rcases List.mem_append.mp hx with h1 | h2
      · simp only [List.nil_append, List.mem_cons, List.not_mem_nil, or_false] at h1
        exact ⟨l, List.mem_cons_self _ _, h1⟩
      · obtain ⟨l2, hl2, hor⟩ := (ih x).mp h2
        exact ⟨l2, List.mem_cons_of_mem _ hl2, hor⟩
    · rintro ⟨l2, hl2, hor⟩
      rcases List.mem_cons.mp hl2 with rfl | hl3
      · refine List.mem_append.mpr (Or.inl ?_)
        simp only [List.nil_append, List.mem_cons, List.not_mem_nil, or_false]
        exact hor
      · exact List.mem_append.mpr (Or.inr ((ih x).mpr ⟨l2, hl3, hor⟩))

theorem mem_usedNodeIds (hubId : String) (links : List Link) (x : String) :
    x ∈ usedNodeIds hubId links ↔
      x = hubId ∨ ∃ l ∈ links, x = l.source ∨ x = l.target := by
  unfold usedNodeIds
  rw [List.mem_append, mem_usedFlat]
  simp only [List.mem_cons, List.not_mem_nil, or_false]
  exact Or.comm

theorem usedNodeIds_mono {hubId : String} {l1 : List Link} (l2 : List Link) {x : String}
    (h : x ∈ usedNodeIds hubId l1) : x ∈ usedNodeIds hubId (l1 ++ l2) := by
  rw [mem_usedNodeIds] at h ⊢
  rcases h with h | ⟨l, hl, hor⟩
  · exact Or.inl h
  · exact Or.inr ⟨l, List.mem_append.mpr (Or.inl hl), hor⟩

theorem dedupFirstAux_append :
    ∀ (l : List Nat) (seen : List Nat) (p : Nat), p ∉ seen → p ∉ l →
      dedupFirstAux seen (l ++ [p]) = dedupFirstAux seen l ++ [p] := by
  intro l
  induction l with
  | nil =>
    intro seen p hs _
    simp [dedupFirstAux, hs]
  | cons q rest ih =>
    intro seen p hs hl
    have hq : p ≠ q := fun he => hl (he ▸ List.mem_cons_self _ _)
    have hrest : p ∉ rest := fun hr => hl (List.mem_cons_of_mem _ hr)
    show dedupFirstAux seen ((q :: rest) ++ [p]) = _
    by_cases hqs : q ∈ seen
    · simp only [List.cons_append, dedupFirstAux, hqs, if_true]
      exact ih seen p hs hrest
    · simp only [List.cons_append, dedupFirstAux, hqs, if_false]
      simp only [List.append_eq]
      rw [ih (q :: seen) p (by simp [hs, hq]) hrest]

theorem dedupFirst_append {l : List Nat} {p : Nat} (hp : p ∉ l) :
    dedupFirst (l ++ [p]) = dedupFirst l ++ [p] :=
  dedupFirstAux_append l [] p (by simp) hp

theorem ensurePortsAux_all_present :
    ∀ (trig : Nat → ℚ × ℚ) (w h : ℚ) (ps : List Nat) (k : Nat) (m : NodeMap),
      (∀ q ∈ ps, (lookupA (portId q) m).isSome) →
      ensurePortsAux trig w h k ps m = m := by
  intro trig w h ps
  induction ps with
  | nil => intro k m _; rfl
  | cons q rest ih =>
    intro k m hall
    have hq := hall q (List.mem_cons_self _ _)
    show ensurePortsAux trig w h (k + 1) rest
      (if (lookupA (portId q) m).isSome then m else _) = m
    rw [if_pos hq]
    exact ih (k + 1) m (fun q2 hq2 => hall q2 (List.mem_cons_of_mem _ hq2))

theorem ensurePortsAux_skip_append (trig : Nat → ℚ × ℚ) (w h : ℚ)
    (ps : List Nat) (p : Nat) (m : NodeMap)
    (hall : ∀ q ∈ ps, (lookupA (portId q) m).isSome)
    (hnone : lookupA (portId p) m = none) :
    ensurePortsAux trig w h 0 (ps ++ [p]) m =
      m ++ [(portId p, portNode trig w h p ps.length)] := by
  have hgen : ∀ (ps2 : List Nat) (k : Nat) (m2 : NodeMap),
      (∀ q ∈ ps2, (lookupA (portId q) m2).isSome) →
      lookupA (portId p) m2 = none →
      ensurePortsAux trig w h k (ps2 ++ [p]) m2 =
        m2 ++ [(portId p, portNode trig w h p (k + ps2.length))] := by
    intro ps2
    induction ps2 with
    | nil =>
      intro k m2 _ hnone2
      show (if (lookupA (portId p) m2).isSome then _ else
        ensurePortsAux trig w h (k + 1) [] (m2 ++ [(portId p, portNode trig w h p k)])) = _
      rw [hnone2]
      simp only [Option.isSome_none, Bool.false_eq_true, if_false]
      rfl
    | cons q rest ih =>
      intro k m2 hall2 hnone2
      have hq := hall2 q (List.mem_cons_self _ _)
      show ensurePortsAux trig w h (k + 1) (rest ++ [p])
        (if (lookupA (portId q) m2).isSome then m2 else _) = _
      rw [if_pos hq]
      rw [ih (k + 1) m2 (fun q2 hq2 => hall2 q2 (List.mem_cons_of_mem _ hq2)) hnone2]
      have : k + 1 + rest.length = k + (q :: rest).length := by
        simp [List.length_cons]
        omega
      rw [this]
  exact (by simpa using hgen ps 0 m hall hnone)

theorem addIpEndpoint_shape (rnd : Nat → ℚ × ℚ) (pid ipId : String) (mc : NodeMap × Nat) :
    ∃ ext, (addIpEndpoint rnd pid ipId mc).1 = mc.1 ++ ext ∧
      ∀ kv ∈ ext, kv.1 = ipId ∧ kv.2.type = "ip" ∧ lookupA kv.1 mc.1 = none := by
  unfold addIpEndpoint
  cases hlk : lookupA ipId mc.1 with
  | some v =>
    simp only [hlk, Option.isSome_some, if_true]
    exact ⟨[], by simp⟩
  | none =>
    simp only [hlk, Option.isSome_none, Bool.false_eq_true, if_false]
    unfold placeIpNearPort
    cases hpp : lookupA pid (mc.1 ++ [(ipId, { id := ipId, type := "ip" : Node })]) with
    | none =>
      refine ⟨[(ipId, { id := ipId, type := "ip" })], rfl, ?_⟩
      intro kv hkv
      rw [List.mem_singleton.mp hkv]
      exact ⟨rfl, rfl, hlk⟩
    | some pn =>
      simp only
      have hm : mutateNode ipId
          (fun n => { n with
            x := pn.fx.map (fun a => a + (rnd mc.2).1 * 50),
            y := pn.fy.map (fun b => b + (rnd mc.2).2 * 50) })
          (mc.1 ++ [(ipId, { id := ipId, type := "ip" : Node })]) =
          mc.1 ++ mutateNode ipId
            (fun n => { n with
              x := pn.fx.map (fun a => a + (rnd mc.2).1 * 50),
              y := pn.fy.map (fun b => b + (rnd mc.2).2 * 50) })
            [(ipId, { id := ipId, type := "ip" : Node })] := by
        unfold mutateNode
        rw [List.map_append]
        have hid := mutateNode_of_lookup_none
          (fun n => { n with
            x := pn.fx.map (fun a => a + (rnd mc.2).1 * 50),
            y := pn.fy.map (fun b => b + (rnd mc.2).2 * 50) }) hlk
        unfold mutateNode at hid
        rw [hid]
      refine ⟨_, hm, ?_⟩
      intro kv hkv
      simp only [mutateNode, List.map_cons, List.map_nil, if_pos rfl] at hkv
      rw [List.mem_singleton.mp hkv]
      exact ⟨rfl, rfl, hlk⟩

theorem addedStep_shape (rnd : Nat → ℚ × ℚ) (acc : NodeMap × List Link × Nat) (c : Conn) :
    (∃ ext, (addedStep rnd acc c).1 = acc.1 ++ ext ∧
      ∀ kv ∈ ext, (kv.1 = c.source ∨ kv.1 = c.target) ∧ kv.2.type = "ip" ∧
        lookupA kv.1 acc.1 = none) ∧
    (∃ lext, (addedStep rnd acc c).2.1 = acc.2.1 ++ lext ∧
      ∀ l ∈ lext, l = ⟨c.source, portId c.port⟩ ∨ l = ⟨portId c.port, c.target⟩) := by
  obtain ⟨e1, he1, hp1⟩ := addIpEndpoint_shape rnd (portId c.port) c.source (acc.1, acc.2.2)
  obtain ⟨e2, he2, hp2⟩ := addIpEndpoint_shape rnd (portId c.port) c.target
    (addIpEndpoint rnd (portId c.port) c.source (acc.1, acc.2.2))
  constructor
  · refine ⟨e1 ++ e2, ?_, ?_⟩
    · show (addIpEndpoint rnd (portId c.port) c.target
        (addIpEndpoint rnd (portId c.port) c.source (acc.1, acc.2.2))).1 = _
      rw [he2, he1, List.append_assoc]
    · intro kv hkv
      rcases List.mem_append.mp hkv with h1 | h2
      · obtain ⟨hk, ht, hn⟩ := hp1 kv h1
        exact ⟨Or.inl hk, ht, hn⟩
      · obtain ⟨hk, ht, hn⟩ := hp2 kv h2
        refine ⟨Or.inr hk, ht, ?_⟩
        rw [he1] at hn
        exact lookupA_append_none hn
  · show ∃ lext,
      (let links1 := if (lookupA c.source (addIpEndpoint rnd (portId c.port) c.target
          (addIpEndpoint rnd (portId c.port) c.source (acc.1, acc.2.2))).1).map Node.type
          = some "ip"
        then acc.2.1 ++ [⟨c.source, portId c.port⟩] else acc.2.1
       let links2 := if (lookupA c.target (addIpEndpoint rnd (portId c.port) c.target
          (addIpEndpoint rnd (portId c.port) c.source (acc.1, acc.2.2))).1).map Node.type
          = some "ip"
        then links1 ++ [⟨portId c.port, c.target⟩] else links1
       links2) = acc.2.1 ++ lext ∧ _
    simp only
    split
    · split
      · exact ⟨[⟨c.source, portId c.port⟩, ⟨portId c.port, c.target⟩],
          by rw [List.append_assoc]; rfl,
          by intro l hl; rcases List.mem_cons.mp hl with rfl | hl2
             · exact Or.inl rfl
             · rw [List.mem_singleton.mp hl2]; exact Or.inr rfl⟩
      · exact ⟨[⟨portId c.port, c.target⟩], rfl,
          by intro l hl; rw [List.mem_singleton.mp hl]; exact Or.inr rfl⟩
    · split
      · exact ⟨[⟨c.source, portId c.port⟩], rfl,
          by intro l hl; rw [List.mem_singleton.mp hl]; exact Or.inl rfl⟩
      · exact ⟨[], by simp⟩

theorem processAdded_shape (rnd : Nat → ℚ × ℚ) :
    ∀ (added : List Conn) (m : NodeMap) (links : List Link) (ctr : Nat),
      (∃ ext, (processAdded rnd added m links ctr).1 = m ++ ext ∧
        ∀ kv ∈ ext, (∃ c ∈ added, kv.1 = c.source ∨ kv.1 = c.target) ∧
          kv.2.type = "ip" ∧ lookupA kv.1 m = none) ∧
      (∃ lext, (processAdded rnd added m links ctr).2.1 = links ++ lext ∧
        ∀ l ∈ lext, ∃ c ∈ added,
          l = ⟨c.source, portId c.port⟩ ∨ l = ⟨portId c.port, c.target⟩) := by
  intro added
  induction added with
  | nil =>
    intro m links ctr
    exact ⟨⟨[], by simp [processAdded], by simp⟩, ⟨[], by simp [processAdded], by simp⟩⟩
  | cons c rest ih =>
    intro m links ctr
    obtain ⟨⟨e1, he1, hp1⟩, ⟨l1, hl1, hq1⟩⟩ := addedStep_shape rnd (m, links, ctr) c
    obtain ⟨⟨e2, he2, hp2⟩, ⟨l2, hl2, hq2⟩⟩ := ih (addedStep rnd (m, links, ctr) c).1
      (addedStep rnd (m, links, ctr) c).2.1 (addedStep rnd (m, links, ctr) c).2.2
    constructor
    · refine ⟨e1 ++ e2, ?_, ?_⟩
      · show (processAdded rnd rest (addedStep rnd (m, links, ctr) c).1
          (addedStep rnd (m, links, ctr) c).2.1
          (addedStep rnd (m, links, ctr) c).2.2).1 = _
        rw [he2, he1, List.append_assoc]
      · intro kv hkv
        rcases List.mem_append.mp hkv with h1 | h2
        · obtain ⟨hk, ht, hn⟩ := hp1 kv h1
          exact ⟨⟨c, List.mem_cons_self _ _, hk⟩, ht, hn⟩
        · obtain ⟨⟨c2, hc2, hk⟩, ht, hn⟩ := hp2 kv h2
          rw [he1] at hn
          exact ⟨⟨c2, List.mem_cons_of_mem _ hc2, hk⟩, ht, lookupA_append_none hn⟩
    · refine ⟨l1 ++ l2, ?_, ?_⟩
      · show (processAdded rnd rest (addedStep rnd (m, links, ctr) c).1
          (addedStep rnd (m, links, ctr) c).2.1
          (addedStep rnd (m, links, ctr) c).2.2).2.1 = _
        rw [hl2, hl1, List.append_assoc]
      · intro l hl
        rcases List.mem_append.mp hl with h1 | h2
        · exact ⟨c, List.mem_cons_self _ _, hq1 l h1⟩
        · obtain ⟨c2, hc2, hor⟩ := hq2 l h2
          exact ⟨c2, List.mem_cons_of_mem _ hc2, hor⟩

theorem ensureHubLinks_mem_strong {hubId : String} :
    ∀ (ps : List Nat) (links : List Link) (l : Link),
      l ∈ ensureHubLinks hubId ps links →
        l ∈ links ∨ ∃ q ∈ ps, l = ⟨hubId, portId q⟩ := by
  intro ps
  induction ps with
  | nil => intro links l hl; exact Or.inl hl
  | cons q rest ih =>
    intro links l hl
    rcases ih (hubLinkStep hubId links q) l hl with h1 | ⟨q2, hq2, rfl⟩
    · unfold hubLinkStep at h1
      split at h1
      · exact Or.inl h1
      · rcases List.mem_append.mp h1 with h2 | h3
        · exact Or.inl h2
        · rw [List.mem_singleton.mp h3]
          exact Or.inr ⟨q, List.mem_cons_self _ _, rfl⟩
    · exact Or.inr ⟨q2, List.mem_cons_of_mem _ hq2, rfl⟩

theorem mem_ensureHubLinks_of_mem {hubId : String} :
    ∀ (ps : List Nat) (links : List Link) (l : Link),
      l ∈ links → l ∈ ensureHubLinks hubId ps links := by
  intro ps
  induction ps with
  | nil => intro links l hl; exact hl
  | cons q rest ih =>
    intro links l hl
    refine ih (hubLinkStep hubId links q) l ?_
    unfold hubLinkStep
    split
    · exact hl
    · exact List.mem_append.mpr (Or.inl hl)

theorem ensureHubLinks_target :
    ∀ (hubId : String) (ps : List Nat) (links : List Link),
      (∀ l ∈ links, ∀ q ∈ ps,
        linkKey l = hubId ++ "->" ++ portId q → l.target = portId q) →
      ∀ q ∈ ps, ∃ l ∈ ensureHubLinks hubId ps links, l.target = portId q := by
  intro hubId ps
  induction ps with
  | nil => intro links _ q hq; simp at hq
  | cons q0 rest ih =>
    intro links hbase q hq
    have hstep_mem : ∀ l ∈ hubLinkStep hubId links q0,
        l ∈ links ∨ l = ⟨hubId, portId q0⟩ := by
      intro l hl
      unfold hubLinkStep at hl
      split at hl
      · exact Or.inl hl
      · rcases List.mem_append.mp hl with h1 | h2
        · exact Or.inl h1
        · exact Or.inr (List.mem_singleton.mp h2)
    rcases List.mem_cons.mp hq with rfl | hq2
    · unfold ensureHubLinks
      rw [List.foldl_cons]
      cases hchk : links.any (fun l => linkKey l == hubId ++ "->" ++ portId q) with
      | true =>
        obtain ⟨l, hl, hkey⟩ := List.any_eq_true.mp hchk
        have : l.target = portId q :=
          hbase l hl q (List.mem_cons_self _ _) (by simpa using hkey)
        refine ⟨l, ?_, this⟩
        refine mem_ensureHubLinks_of_mem rest _ l ?_
        unfold hubLinkStep
        rw [hchk]
        exact hl
      | false =>
        refine ⟨⟨hubId, portId q⟩, ?_, rfl⟩
        refine mem_ensureHubLinks_of_mem rest _ _ ?_
        unfold hubLinkStep
        rw [hchk]
        simp
    · unfold ensureHubLinks
      rw [List.foldl_cons]
      refine ih (hubLinkStep hubId links q0) ?_ q hq2
      intro l hl q2 hq3 hkey
      rcases hstep_mem l hl with h1 | rfl
      · exact hbase l h1 q2 (List.mem_cons_of_mem _ hq3) hkey
      · have : portId q0 = portId q2 := string_append_left_cancel (s := hubId ++ "->") (by
          have : linkKey (⟨hubId, portId q0⟩ : Link) = hubId ++ "->" ++ portId q0 := rfl
          rw [this] at hkey
          rw [String.append_assoc, String.append_assoc] at hkey ⊢
          exact hkey)
        simpa using this

theorem string_append_right_cancel {a b s : String} (h : a ++ s = b ++ s) : a = b := by
  have hd : (a ++ s).data = (b ++ s).data := by rw [h]
  rw [String.data_append, String.data_append] at hd
  exact String.ext (List.append_cancel_right hd)

theorem linkKey_eq_iff {l : Link} {a b : String}
    (h : linkKey l = a ++ "->" ++ b) (hsrc : l.source = a) : l.target = b := by
  unfold linkKey at h
  rw [hsrc] at h
  rw [String.append_assoc, String.append_assoc] at h
  have h2 := string_append_left_cancel h
  exact string_append_left_cancel h2

theorem ensureHubLinks_append_split (hubId : String) (ps : List Nat) (p : Nat)
    (links : List Link) :
    ensureHubLinks hubId (ps ++ [p]) links =
      hubLinkStep hubId (ensureHubLinks hubId ps links) p := by
  unfold ensureHubLinks
  rw [List.foldl_append]
  rfl


/-- C5 amended: starting from a fresh card, let the second snapshot extend
the first by one appended tuple `t` carrying a new port number (with the
natural hygiene side conditions: `t` is not loopback, its key is new, no
endpoint string or the hub id collides with a generated port id or hub-link
key, and `t.source` is not the hub id).  Then the second update creates
exactly one new port node — the list of port-kind node ids grows by exactly
`port-<t.port>` — pinned at the star placement for index `i` = the number of
distinct ports of the first snapshot (ring `⌊i/8⌋`, position `i mod 8`),
which is ring 0 position 0 (angle 0, radius `baseRadius`) exactly when the
first snapshot had no ports; and it adds exactly one new hub→port edge. -/
theorem C5_amended_new_port (hubId : String) (trig rnd : Nat → ℚ × ℚ)
    (w1 h1 w2 h2 : ℚ) (S1 : List Conn) (t : Conn)
    (ht : notLoopback t = true)
    (hkeynew : connectionKey t ∉ (S1.filter notLoopback).map connectionKey)
    (hnew : t.port ∉ (S1.filter notLoopback).map Conn.port)
    (hpids : ∀ q ∈ duPorts S1, portId q ≠ portId t.port)
    (hhubpid : hubId ≠ portId t.port)
    (hsrc : t.source ≠ hubId)
    (hends : ∀ c ∈ S1.filter notLoopback,
      c.source ≠ portId t.port ∧ c.target ≠ portId t.port)
    (hkeyh : ∀ c ∈ S1.filter notLoopback, ∀ q ∈ duPorts S1 ++ [t.port],
      c.source ++ "->" ++ portId c.port ≠ hubId ++ "->" ++ portId q ∧
      portId c.port ++ "->" ++ c.target ≠ hubId ++ "->" ++ portId q)
    (hkeyt2 : portId t.port ++ "->" ++ t.target ≠ hubId ++ "->" ++ portId t.port) :
    (((deltaUpdate hubId trig rnd w2 h2 (S1 ++ [t])
        (deltaUpdate hubId trig rnd w1 h1 S1 initGraph 0).1
        (deltaUpdate hubId trig rnd w1 h1 S1 initGraph 0).2.2).1.nodesMap.filter
          (fun kv => kv.2.type == "port")).map Prod.fst =
      ((deltaUpdate hubId trig rnd w1 h1 S1 initGraph 0).1.nodesMap.filter
          (fun kv => kv.2.type == "port")).map Prod.fst ++ [portId t.port]) ∧
    (lookupA (portId t.port)
        (deltaUpdate hubId trig rnd w2 h2 (S1 ++ [t])
          (deltaUpdate hubId trig rnd w1 h1 S1 initGraph 0).1
          (deltaUpdate hubId trig rnd w1 h1 S1 initGraph 0).2.2).1.nodesMap =
      some (portNode trig w2 h2 t.port (duPorts S1).length)) ∧
    ((deltaUpdate hubId trig rnd w2 h2 (S1 ++ [t])
        (deltaUpdate hubId trig rnd w1 h1 S1 initGraph 0).1
        (deltaUpdate hubId trig rnd w1 h1 S1 initGraph 0).2.2).1.links.filter
          (fun l => l.source == hubId) =
      (deltaUpdate hubId trig rnd w1 h1 S1 initGraph 0).1.links.filter
          (fun l => l.source == hubId) ++ [⟨hubId, portId t.port⟩]) := by
  have hF0 : (S1 ++ [t]).filter notLoopback = S1.filter notLoopback ++ [t] := by
    rw [List.filter_append]
    simp [List.filter_cons, ht]
  have hF1 : duPorts (S1 ++ [t]) = duPorts S1 ++ [t.port] := by
    unfold duPorts
    rw [hF0, List.map_append]
    exact dedupFirst_append (by simpa using hnew)
  have hF3 : duDiff (S1 ++ [t]) (deltaUpdate hubId trig rnd w1 h1 S1 initGraph 0).1 =
      ⟨[t], []⟩ := by
    show computeDiff (S1.filter notLoopback) ((S1 ++ [t]).filter notLoopback) = _
    rw [hF0]
    show DiffResult.mk
      ((S1.filter notLoopback ++ [t]).filter (fun c =>
        decide (connectionKey c ∉ (S1.filter notLoopback).map connectionKey)))
      ((S1.filter notLoopback).filter (fun c =>
        decide (connectionKey c ∉ (S1.filter notLoopback ++ [t]).map connectionKey))) = _
    have hadd : (S1.filter notLoopback ++ [t]).filter (fun c =>
        decide (connectionKey c ∉ (S1.filter notLoopback).map connectionKey)) = [t] := by
      rw [List.filter_append]
      have hfa : (S1.filter notLoopback).filter (fun c =>
          decide (connectionKey c ∉ (S1.filter notLoopback).map connectionKey)) = [] := by
        rw [List.filter_eq_nil_iff]
        intro c hc
        simp only [decide_eq_true_eq, not_not]
        exact List.mem_map_of_mem _ hc
      have hfb : ([t] : List Conn).filter (fun c =>
          decide (connectionKey c ∉ (S1.filter notLoopback).map connectionKey)) = [t] := by
        rw [List.filter_cons]
        simp only [decide_eq_true_eq]
        rw [if_pos hkeynew]
        rfl
      rw [hfa, hfb]
      rfl
    have hrem : (S1.filter notLoopback).filter (fun c =>
        decide (connectionKey c ∉ (S1.filter notLoopback ++ [t]).map connectionKey)) = [] := by
      rw [List.filter_eq_nil_iff]
      intro c hc
      simp only [decide_eq_true_eq, not_not]
      rw [List.map_append]
      exact List.mem_append.mpr (Or.inl (List.mem_map_of_mem _ hc))
    rw [hadd, hrem]
  have hF4 := deltaUpdate_hub_isSome hubId trig rnd w1 h1 S1 initGraph 0
  have hF5 : ensureHub hubId w2 h2
      (deltaUpdate hubId trig rnd w1 h1 S1 initGraph 0).1.nodesMap =
      (deltaUpdate hubId trig rnd w1 h1 S1 initGraph 0).1.nodesMap := by
    unfold ensureHub
    simp [hF4]
  obtain ⟨lext1, hB1eq, hB1shape⟩ := (processAdded_shape rnd
    (duDiff S1 initGraph).added
    (ensurePorts trig w1 h1 (duPorts S1) (ensureHub hubId w1 h1 initGraph.nodesMap))
    initGraph.links 0).2
  have hadded1sub : ∀ c ∈ (duDiff S1 initGraph).added, c ∈ S1.filter notLoopback := by
    intro c hc
    exact List.filter_subset' _ hc
  have hB1 : ∀ l ∈ processRemoved
      (duDiff S1 initGraph).removed
      (duMapLinksCtr hubId trig rnd w1 h1 S1 initGraph 0).2.1,
      ∃ c ∈ S1.filter notLoopback,
        l = ⟨c.source, portId c.port⟩ ∨ l = ⟨portId c.port, c.target⟩ := by
    intro l hl
    have hl2 : l ∈ initGraph.links ++ lext1 := by
      rw [← hB1eq]
      exact hl
    have hl3 : l ∈ lext1 := by
      have hnil : initGraph.links ++ lext1 = lext1 := rfl
      rw [hnil] at hl2
      exact hl2
    obtain ⟨c, hc, hor⟩ := hB1shape l hl3
    exact ⟨c, hadded1sub c hc, hor⟩
  have hF9 : ∀ q ∈ duPorts S1,
      ∃ l ∈ (deltaUpdate hubId trig rnd w1 h1 S1 initGraph 0).1.links,
        l.target = portId q := by
    intro q hq
    refine ensureHubLinks_target hubId (duPorts S1) _ ?_ q hq
    intro l hl q2 hq2 hkey
    obtain ⟨c, hc, hor⟩ := hB1 l hl
    exfalso
    rcases hor with rfl | rfl
    · exact (hkeyh c hc q2 (List.mem_append.mpr (Or.inl hq2))).1 hkey
    · exact (hkeyh c hc q2 (List.mem_append.mpr (Or.inl hq2))).2 hkey
  have hF10 : ∀ q ∈ duPorts S1, portId q ∈ usedNodeIds hubId
      (deltaUpdate hubId trig rnd w1 h1 S1 initGraph 0).1.links := by
    intro q hq
    obtain ⟨l, hl, htgt⟩ := hF9 q hq
    exact (mem_usedNodeIds _ _ _).mpr (Or.inr ⟨l, hl, Or.inr htgt.symm⟩)
  have hF11 : ∀ q ∈ duPorts S1,
      (lookupA (portId q)
        (deltaUpdate hubId trig rnd w1 h1 S1 initGraph 0).1.nodesMap).isSome := by
    intro q hq
    have hF10b : portId q ∈ usedNodeIds hubId
        (duLinks hubId trig rnd w1 h1 S1 initGraph 0) := hF10 q hq
    show (lookupA (portId q) (pruneNodes hubId
      (duLinks hubId trig rnd w1 h1 S1 initGraph 0)
      (duMapLinksCtr hubId trig rnd w1 h1 S1 initGraph 0).1)).isSome
    rw [lookupA_pruneNodes, if_pos hF10b]
    exact duMapLinksCtr_port_isSome hubId trig rnd w1 h1 S1 initGraph 0 q hq
  have hF12 : lookupA (portId t.port)
      (duMapLinksCtr hubId trig rnd w1 h1 S1 initGraph 0).1 = none := by
    obtain ⟨extP, hPeq, hPprop⟩ := ensurePortsAux_shape trig w1 h1 0 (duPorts S1)
      (ensureHub hubId w1 h1 initGraph.nodesMap)
    obtain ⟨extI, hIeq, hIprop⟩ := (processAdded_shape rnd
      (duDiff S1 initGraph).added
      (ensurePorts trig w1 h1 (duPorts S1) (ensureHub hubId w1 h1 initGraph.nodesMap))
      initGraph.links 0).1
    show lookupA (portId t.port) (processAdded rnd
      (duDiff S1 initGraph).added
      (ensurePorts trig w1 h1 (duPorts S1) (ensureHub hubId w1 h1 initGraph.nodesMap))
      initGraph.links 0).1 = none
    rw [hIeq]
    rw [lookupA_eq_none_iff]
    intro kv hkv
    rcases List.mem_append.mp hkv with hma | hmb
    · have hma1 : kv ∈ ensurePortsAux trig w1 h1 0 (duPorts S1)
          (ensureHub hubId w1 h1 initGraph.nodesMap) := hma
      rw [hPeq] at hma1
      rcases List.mem_append.mp hma1 with hma2 | hma3
      · have hma4 : kv ∈ [(hubId, hubNode hubId w1 h1)] := hma2
        rw [List.mem_singleton.mp hma4]
        exact hhubpid
      · obtain ⟨_, _, q, hq, hkid⟩ := hPprop kv hma3
        rw [hkid]
        exact hpids q hq
    · obtain ⟨⟨c, hc, hor⟩, _, _⟩ := hIprop kv hmb
      have hcC := hadded1sub c hc
      rcases hor with hk | hk
      · rw [hk]; exact (hends c hcC).1
      · rw [hk]; exact (hends c hcC).2
  have hF13 : lookupA (portId t.port)
      (deltaUpdate hubId trig rnd w1 h1 S1 initGraph 0).1.nodesMap = none := by
    show lookupA (portId t.port) (pruneNodes hubId
      (duLinks hubId trig rnd w1 h1 S1 initGraph 0)
      (duMapLinksCtr hubId trig rnd w1 h1 S1 initGraph 0).1) = none
    rw [lookupA_pruneNodes]
    split
    · exact hF12
    · rfl
  have hm2 : ensurePorts trig w2 h2 (duPorts (S1 ++ [t]))
      (deltaUpdate hubId trig rnd w1 h1 S1 initGraph 0).1.nodesMap =
      (deltaUpdate hubId trig rnd w1 h1 S1 initGraph 0).1.nodesMap ++
        [(portId t.port, portNode trig w2 h2 t.port (duPorts S1).length)] := by
    rw [hF1]
    unfold ensurePorts
    exact ensurePortsAux_skip_append trig w2 h2 (duPorts S1) t.port _ hF11 hF13
  have hMLC2 : duMapLinksCtr hubId trig rnd w2 h2 (S1 ++ [t])
      (deltaUpdate hubId trig rnd w1 h1 S1 initGraph 0).1
      (deltaUpdate hubId trig rnd w1 h1 S1 initGraph 0).2.2 =
      processAdded rnd [t]
        ((deltaUpdate hubId trig rnd w1 h1 S1 initGraph 0).1.nodesMap ++
          [(portId t.port, portNode trig w2 h2 t.port (duPorts S1).length)])
        (deltaUpdate hubId trig rnd w1 h1 S1 initGraph 0).1.links
        (deltaUpdate hubId trig rnd w1 h1 S1 initGraph 0).2.2 := by
    unfold duMapLinksCtr
    rw [hF3, hF5, hm2]
  obtain ⟨⟨extI2, hI2eq, hI2prop⟩, ⟨lext2, hl2eq, hl2prop⟩⟩ := processAdded_shape rnd [t]
    ((deltaUpdate hubId trig rnd w1 h1 S1 initGraph 0).1.nodesMap ++
      [(portId t.port, portNode trig w2 h2 t.port (duPorts S1).length)])
    (deltaUpdate hubId trig rnd w1 h1 S1 initGraph 0).1.links
    (deltaUpdate hubId trig rnd w1 h1 S1 initGraph 0).2.2
  have hl2prop' : ∀ l ∈ lext2,
      l = ⟨t.source, portId t.port⟩ ∨ l = ⟨portId t.port, t.target⟩ := by
    intro l hl
    obtain ⟨c, hc, hor⟩ := hl2prop l hl
    rw [List.mem_singleton.mp hc] at hor
    exact hor
  have hall2 : ∀ q ∈ duPorts S1,
      ((deltaUpdate hubId trig rnd w1 h1 S1 initGraph 0).1.links ++ lext2).any
        (fun l => linkKey l == hubId ++ "->" ++ portId q) = true := by
    intro q hq
    have hbase : (ensureHubLinks hubId (duPorts S1)
        (processRemoved (duDiff S1 initGraph).removed
          (duMapLinksCtr hubId trig rnd w1 h1 S1 initGraph 0).2.1)).any
        (fun l => linkKey l == hubId ++ "->" ++ portId q) = true :=
      ensureHubLinks_ensures hubId (duPorts S1) _ q hq
    exact any_append_left lext2 hbase
  have hcheck : (((deltaUpdate hubId trig rnd w1 h1 S1 initGraph 0).1.links ++ lext2).any
      (fun l => linkKey l == hubId ++ "->" ++ portId t.port)) = false := by
    rw [Bool.eq_false_iff]
    intro hany
    obtain ⟨l, hl, hkeyb⟩ := List.any_eq_true.mp hany
    have hkey : linkKey l = hubId ++ "->" ++ portId t.port := by simpa using hkeyb
    rcases List.mem_append.mp hl with hL | hE
    · have hL2 : l ∈ ensureHubLinks hubId (duPorts S1)
          (processRemoved (duDiff S1 initGraph).removed
            (duMapLinksCtr hubId trig rnd w1 h1 S1 initGraph 0).2.1) := hL
      rcases ensureHubLinks_mem_strong (duPorts S1) _ l hL2 with hB | ⟨q, hq, rfl⟩
      · obtain ⟨c, hc, hor⟩ := hB1 l hB
        rcases hor with rfl | rfl
        · exact (hkeyh c hc t.port
            (List.mem_append.mpr (Or.inr (List.mem_singleton_self _)))).1 hkey
        · exact (hkeyh c hc t.port
            (List.mem_append.mpr (Or.inr (List.mem_singleton_self _)))).2 hkey
      · have hqeq : portId q = portId t.port := linkKey_eq_iff hkey rfl
        exact hpids q hq hqeq
    · rcases hl2prop' l hE with rfl | rfl
      · have hca : (t.source ++ "->") ++ portId t.port =
            (hubId ++ "->") ++ portId t.port := hkey
        have hcb : t.source ++ "->" = hubId ++ "->" := string_append_right_cancel hca
        exact hsrc (string_append_right_cancel hcb)
      · exact hkeyt2 hkey
  have hL2 : duLinks hubId trig rnd w2 h2 (S1 ++ [t])
      (deltaUpdate hubId trig rnd w1 h1 S1 initGraph 0).1
      (deltaUpdate hubId trig rnd w1 h1 S1 initGraph 0).2.2 =
      ((deltaUpdate hubId trig rnd w1 h1 S1 initGraph 0).1.links ++ lext2) ++
        [⟨hubId, portId t.port⟩] := by
    unfold duLinks
    rw [hF3]
    show ensureHubLinks hubId (duPorts (S1 ++ [t]))
      (duMapLinksCtr hubId trig rnd w2 h2 (S1 ++ [t])
        (deltaUpdate hubId trig rnd w1 h1 S1 initGraph 0).1
        (deltaUpdate hubId trig rnd w1 h1 S1 initGraph 0).2.2).2.1 = _
    rw [hMLC2, hl2eq, hF1, ensureHubLinks_append_split]
    rw [ensureHubLinks_of_all hubId (duPorts S1) _ hall2]
    unfold hubLinkStep
    rw [hcheck]
    simp only [Bool.false_eq_true, if_false]
  have hused2 : ∀ x, x ∈ usedNodeIds hubId
      (deltaUpdate hubId trig rnd w1 h1 S1 initGraph 0).1.links →
      x ∈ usedNodeIds hubId
        (((deltaUpdate hubId trig rnd w1 h1 S1 initGraph 0).1.links ++ lext2) ++
          [⟨hubId, portId t.port⟩]) := by
    intro x hx
    rw [List.append_assoc]
    exact usedNodeIds_mono _ hx
  have hpid_used : portId t.port ∈ usedNodeIds hubId
      (((deltaUpdate hubId trig rnd w1 h1 S1 initGraph 0).1.links ++ lext2) ++
        [⟨hubId, portId t.port⟩]) := by
    rw [mem_usedNodeIds]
    refine Or.inr ⟨⟨hubId, portId t.port⟩, ?_, Or.inr rfl⟩
    exact List.mem_append.mpr (Or.inr (List.mem_singleton_self _))
  have hkeep : pruneNodes hubId
      (((deltaUpdate hubId trig rnd w1 h1 S1 initGraph 0).1.links ++ lext2) ++
        [⟨hubId, portId t.port⟩])
      (deltaUpdate hubId trig rnd w1 h1 S1 initGraph 0).1.nodesMap =
      (deltaUpdate hubId trig rnd w1 h1 S1 initGraph 0).1.nodesMap := by
    unfold pruneNodes
    apply List.filter_eq_self.mpr
    intro kv hkv
    have hkv2 : kv ∈ List.filter (fun kv => decide (kv.1 ∈ usedNodeIds hubId
        (duLinks hubId trig rnd w1 h1 S1 initGraph 0)))
        (duMapLinksCtr hubId trig rnd w1 h1 S1 initGraph 0).1 := hkv
    have hd := List.of_mem_filter hkv2
    simp only [decide_eq_true_eq] at hd ⊢
    exact hused2 kv.1 hd
  have hkeep_pid : pruneNodes hubId
      (((deltaUpdate hubId trig rnd w1 h1 S1 initGraph 0).1.links ++ lext2) ++
        [⟨hubId, portId t.port⟩])
      [(portId t.port, portNode trig w2 h2 t.port (duPorts S1).length)] =
      [(portId t.port, portNode trig w2 h2 t.port (duPorts S1).length)] := by
    unfold pruneNodes
    apply List.filter_eq_self.mpr
    intro kv hkv
    rw [List.mem_singleton.mp hkv]
    simp only [decide_eq_true_eq]
    exact hpid_used
  have hnm2 : (deltaUpdate hubId trig rnd w2 h2 (S1 ++ [t])
      (deltaUpdate hubId trig rnd w1 h1 S1 initGraph 0).1
      (deltaUpdate hubId trig rnd w1 h1 S1 initGraph 0).2.2).1.nodesMap =
      (deltaUpdate hubId trig rnd w1 h1 S1 initGraph 0).1.nodesMap ++
        ([(portId t.port, portNode trig w2 h2 t.port (duPorts S1).length)] ++
          pruneNodes hubId
            (((deltaUpdate hubId trig rnd w1 h1 S1 initGraph 0).1.links ++ lext2) ++
              [⟨hubId, portId t.port⟩]) extI2) := by
    show pruneNodes hubId
      (duLinks hubId trig rnd w2 h2 (S1 ++ [t])
        (deltaUpdate hubId trig rnd w1 h1 S1 initGraph 0).1
        (deltaUpdate hubId trig rnd w1 h1 S1 initGraph 0).2.2)
      (duMapLinksCtr hubId trig rnd w2 h2 (S1 ++ [t])
        (deltaUpdate hubId trig rnd w1 h1 S1 initGraph 0).1
        (deltaUpdate hubId trig rnd w1 h1 S1 initGraph 0).2.2).1 = _
    rw [hMLC2, hI2eq, hL2]
    rw [pruneNodes_append, pruneNodes_append]
    rw [hkeep, hkeep_pid]
    rw [List.append_assoc]
  refine ⟨?_, ?_, ?_⟩
  · rw [hnm2]
    rw [List.filter_append, List.filter_append, List.map_append, List.map_append]
    have hport_single : (([(portId t.port, portNode trig w2 h2 t.port
        (duPorts S1).length)].filter (fun kv => kv.2.type == "port")).map Prod.fst) =
        [portId t.port] := by
      rfl
    have hport_ext : (pruneNodes hubId
        (((deltaUpdate hubId trig rnd w1 h1 S1 initGraph 0).1.links ++ lext2) ++
          [⟨hubId, portId t.port⟩]) extI2).filter
          (fun kv => kv.2.type == "port") = [] := by
      rw [List.filter_eq_nil_iff]
      intro kv hkv
      have hkv2 : kv ∈ extI2 := by
        have hmemf : kv ∈ List.filter (fun kv => decide (kv.1 ∈ usedNodeIds hubId
            (((deltaUpdate hubId trig rnd w1 h1 S1 initGraph 0).1.links ++ lext2) ++
              [⟨hubId, portId t.port⟩]))) extI2 := hkv
        exact List.mem_of_mem_filter hmemf
      obtain ⟨_, htype, _⟩ := hI2prop kv hkv2
      rw [htype]
      decide
    rw [hport_single, hport_ext]
    simp
  · rw [hnm2]
    rw [lookupA_append_of_none _ hF13]
    rw [List.singleton_append]
    simp [lookupA]
  · show (duLinks hubId trig rnd w2 h2 (S1 ++ [t])
      (deltaUpdate hubId trig rnd w1 h1 S1 initGraph 0).1
      (deltaUpdate hubId trig rnd w1 h1 S1 initGraph 0).2.2).filter
        (fun l => l.source == hubId) = _
    rw [hL2]
    rw [List.filter_append, List.filter_append]
    have hlext2f : lext2.filter (fun l => l.source == hubId) = [] := by
      rw [List.filter_eq_nil_iff]
      intro l hl
      rcases hl2prop' l hl with rfl | rfl
      · simp only [beq_iff_eq]
        exact hsrc
      · simp only [beq_iff_eq]
        exact fun he => hhubpid he.symm
    have hx : ([(⟨hubId, portId t.port⟩ : Link)].filter (fun l => l.source == hubId)) =
        [(⟨hubId, portId t.port⟩ : Link)] := by
      simp
    rw [hlext2f, List.append_nil, hx]

/-- C5 counterexample: first snapshot `[{10.0.0.2 -> 8.8.8.8 : 443}]`, second
snapshot appends the tuple `{1.2.3.4 -> 5.6.7.8 : 80}` with the new port 80,
viewport 1000×1000 on both cycles.  The new `port-80` node is created at
discovery index 1 — odd position 1 of ring 0, at half radius along the 45°
direction — not at ring 0 position 0 (angle 0, radius `baseRadius`) as the
claim states: its pinned x-coordinate differs from the ring-0-position-0
x-coordinate (605 versus 800). -/
theorem C5_counterexample :
    (lookupA (portId 80)
      (deltaUpdate hub0 trig0 rnd0 1000 1000
        ([⟨"10.0.0.2", "8.8.8.8", 443⟩] ++ [⟨"1.2.3.4", "5.6.7.8", 80⟩])
        (deltaUpdate hub0 trig0 rnd0 1000 1000
          [⟨"10.0.0.2", "8.8.8.8", 443⟩] initGraph 0).1
        (deltaUpdate hub0 trig0 rnd0 1000 1000
          [⟨"10.0.0.2", "8.8.8.8", 443⟩] initGraph 0).2.2).1.nodesMap =
      some (portNode trig0 1000 1000 80 1)) ∧
    (portNode trig0 1000 1000 80 1).fx ≠ some (starPlacement trig0 1000 1000 0).1 := by
  constructor
  · rfl
  · have hx1 : (portNode trig0 1000 1000 80 1).fx = some 605 := by
      show some (starPlacement trig0 1000 1000 1).1 = some 605
      norm_num [starPlacement, starRadius, trig0]
    have hx0 : (starPlacement trig0 1000 1000 0).1 = 800 := by
      norm_num [starPlacement, starRadius, trig0]
    rw [hx1, hx0]
    intro hcontra
    have : (605 : ℚ) = 800 := Option.some.inj hcontra
    norm_num at this

/-- Witness instantiating the amended C5 theorem: first snapshot
`[{10.0.0.2 -> 8.8.8.8 : 443}]`, appended tuple `{1.2.3.4 -> 5.6.7.8 : 80}`,
viewport 1000×1000 on both cycles; all hygiene hypotheses hold by
computation. -/
theorem C5_amended_new_port_witness :
    (((deltaUpdate hub0 trig0 rnd0 1000 1000
        ([⟨"10.0.0.2", "8.8.8.8", 443⟩] ++ [⟨"1.2.3.4", "5.6.7.8", 80⟩])
        (deltaUpdate hub0 trig0 rnd0 1000 1000
          [⟨"10.0.0.2", "8.8.8.8", 443⟩] initGraph 0).1
        (deltaUpdate hub0 trig0 rnd0 1000 1000
          [⟨"10.0.0.2", "8.8.8.8", 443⟩] initGraph 0).2.2).1.nodesMap.filter
          (fun kv => kv.2.type == "port")).map Prod.fst =
      ((deltaUpdate hub0 trig0 rnd0 1000 1000
          [⟨"10.0.0.2", "8.8.8.8", 443⟩] initGraph 0).1.nodesMap.filter
          (fun kv => kv.2.type == "port")).map Prod.fst ++ [portId 80]) ∧
    (lookupA (portId 80)
        (deltaUpdate hub0 trig0 rnd0 1000 1000
          ([⟨"10.0.0.2", "8.8.8.8", 443⟩] ++ [⟨"1.2.3.4", "5.6.7.8", 80⟩])
          (deltaUpdate hub0 trig0 rnd0 1000 1000
            [⟨"10.0.0.2", "8.8.8.8", 443⟩] initGraph 0).1
          (deltaUpdate hub0 trig0 rnd0 1000 1000
            [⟨"10.0.0.2", "8.8.8.8", 443⟩] initGraph 0).2.2).1.nodesMap =
      some (portNode trig0 1000 1000 80
        (duPorts [⟨"10.0.0.2", "8.8.8.8", 443⟩]).length)) ∧
    ((deltaUpdate hub0 trig0 rnd0 1000 1000
        ([⟨"10.0.0.2", "8.8.8.8", 443⟩] ++ [⟨"1.2.3.4", "5.6.7.8", 80⟩])
        (deltaUpdate hub0 trig0 rnd0 1000 1000
          [⟨"10.0.0.2", "8.8.8.8", 443⟩] initGraph 0).1
        (deltaUpdate hub0 trig0 rnd0 1000 1000
          [⟨"10.0.0.2", "8.8.8.8", 443⟩] initGraph 0).2.2).1.links.filter
          (fun l => l.source == hub0) =
      (deltaUpdate hub0 trig0 rnd0 1000 1000
          [⟨"10.0.0.2", "8.8.8.8", 443⟩] initGraph 0).1.links.filter
          (fun l => l.source == hub0) ++ [⟨hub0, portId 80⟩]) :=
  C5_amended_new_port hub0 trig0 rnd0 1000 1000 1000 1000
    [⟨"10.0.0.2", "8.8.8.8", 443⟩] ⟨"1.2.3.4", "5.6.7.8", 80⟩
    (by decide) (by decide) (by decide) (by decide) (by decide)
    (by decide) (by decide) (by decide) (by decide)

theorem lookupA_some_mem {α : Type} {k : String} {v : α} :
    ∀ {m : List (String × α)}, lookupA k m = some v → (k, v) ∈ m := by
  intro m
  induction m with
  | nil => intro h; simp [lookupA] at h
  | cons kv rest ih =>
    intro h
    simp only [lookupA] at h
    by_cases hk : kv.1 = k
    · rw [if_pos hk] at h
      have heq : (k, v) = kv := by
        obtain ⟨a, b⟩ := kv
        have hb : b = v := Option.some.inj h
        simp only at hk
        rw [← hk, ← hb]
      rw [heq]
      exact List.mem_cons_self _ _
    · rw [if_neg hk] at h
      exact List.mem_cons_of_mem _ (ih h)

theorem lookupA_append_cases {α : Type} {k : String} {m e : List (String × α)} {v : α}
    (h : lookupA k (m ++ e) = some v) :
    lookupA k m = some v ∨ (lookupA k m = none ∧ lookupA k e = some v) := by
  cases hm : lookupA k m with
  | some w =>
    have hw : w = v := Option.some.inj ((lookupA_append_of_some e hm).symm.trans h)
    left
    rw [← hw]
  | none =>
    right
    exact ⟨rfl, (lookupA_append_of_none e hm).symm.trans h⟩

theorem addIpEndpoint_unpinned (rnd : Nat → ℚ × ℚ) (pid ipId : String)
    (mc : NodeMap × Nat) :
    ∃ ext, (addIpEndpoint rnd pid ipId mc).1 = mc.1 ++ ext ∧
      ∀ kv ∈ ext, kv.2.fx = none ∧ kv.2.fy = none := by
  unfold addIpEndpoint
  cases hlk : lookupA ipId mc.1 with
  | some v =>
    simp only [hlk, Option.isSome_some, if_true]
    exact ⟨[], by simp⟩
  | none =>
    simp only [hlk, Option.isSome_none, Bool.false_eq_true, if_false]
    unfold placeIpNearPort
    cases hpp : lookupA pid (mc.1 ++ [(ipId, { id := ipId, type := "ip" : Node })]) with
    | none =>
      refine ⟨[(ipId, { id := ipId, type := "ip" })], rfl, ?_⟩
      intro kv hkv
      rw [List.mem_singleton.mp hkv]
      exact ⟨rfl, rfl⟩
    | some pn =>
      simp only
      have hm : mutateNode ipId
          (fun n => { n with
            x := pn.fx.map (fun a => a + (rnd mc.2).1 * 50),
            y := pn.fy.map (fun b => b + (rnd mc.2).2 * 50) })
          (mc.1 ++ [(ipId, { id := ipId, type := "ip" : Node })]) =
          mc.1 ++ mutateNode ipId
            (fun n => { n with
              x := pn.fx.map (fun a => a + (rnd mc.2).1 * 50),
              y := pn.fy.map (fun b => b + (rnd mc.2).2 * 50) })
            [(ipId, { id := ipId, type := "ip" : Node })] := by
        unfold mutateNode
        rw [List.map_append]
        have hid := mutateNode_of_lookup_none
          (fun n => { n with
            x := pn.fx.map (fun a => a + (rnd mc.2).1 * 50),
            y := pn.fy.map (fun b => b + (rnd mc.2).2 * 50) }) hlk
        unfold mutateNode at hid
        rw [hid]
      refine ⟨_, hm, ?_⟩
      intro kv hkv
      simp only [mutateNode, List.map_cons, List.map_nil, if_pos rfl] at hkv
      rw [List.mem_singleton.mp hkv]
      exact ⟨rfl, rfl⟩

theorem addedStep_unpinned (rnd : Nat → ℚ × ℚ) (acc : NodeMap × List Link × Nat)
    (c : Conn) :
    ∃ ext, (addedStep rnd acc c).1 = acc.1 ++ ext ∧
      ∀ kv ∈ ext, kv.2.fx = none ∧ kv.2.fy = none := by
  obtain ⟨e1, he1, hp1⟩ := addIpEndpoint_unpinned rnd (portId c.port) c.source
    (acc.1, acc.2.2)
  obtain ⟨e2, he2, hp2⟩ := addIpEndpoint_unpinned rnd (portId c.port) c.target
    (addIpEndpoint rnd (portId c.port) c.source (acc.1, acc.2.2))
  refine ⟨e1 ++ e2, ?_, ?_⟩
  · show (addIpEndpoint rnd (portId c.port) c.target
      (addIpEndpoint rnd (portId c.port) c.source (acc.1, acc.2.2))).1 = _
    rw [he2, he1, List.append_assoc]
  · intro kv hkv
    rcases List.mem_append.mp hkv with h1 | h2
    · exact hp1 kv h1
    · exact hp2 kv h2

theorem processAdded_unpinned (rnd : Nat → ℚ × ℚ) :
    ∀ (added : List Conn) (m : NodeMap) (links : List Link) (ctr : Nat),
      ∃ ext, (processAdded rnd added m links ctr).1 = m ++ ext ∧
        ∀ kv ∈ ext, kv.2.fx = none ∧ kv.2.fy = none := by
  intro added
  induction added with
  | nil =>
    intro m links ctr
    exact ⟨[], by simp [processAdded], by simp⟩
  | cons c rest ih =>
    intro m links ctr
    obtain ⟨e1, he1, hp1⟩ := addedStep_unpinned rnd (m, links, ctr) c
    obtain ⟨e2, he2, hp2⟩ := ih (addedStep rnd (m, links, ctr) c).1
      (addedStep rnd (m, links, ctr) c).2.1 (addedStep rnd (m, links, ctr) c).2.2
    refine ⟨e1 ++ e2, ?_, ?_⟩
    · show (processAdded rnd rest (addedStep rnd (m, links, ctr) c).1
        (addedStep rnd (m, links, ctr) c).2.1
        (addedStep rnd (m, links, ctr) c).2.2).1 = _
      rw [he2, he1, List.append_assoc]
    · intro kv hkv
      rcases List.mem_append.mp hkv with h1 | h2
      · exact hp1 kv h1
      · exact hp2 kv h2

theorem ensureHub_lookup_cases {hubId : String} {w h : ℚ} {m : NodeMap}
    {k : String} {n : Node} (hl : lookupA k (ensureHub hubId w h m) = some n) :
    lookupA k m = some n ∨ n = hubNode hubId w h := by
  unfold ensureHub at hl
  split at hl
  · exact Or.inl hl
  · rcases lookupA_append_cases hl with h1 | ⟨_, h2⟩
    · exact Or.inl h1
    · have hmem := lookupA_some_mem h2
      rw [List.mem_singleton] at hmem
      exact Or.inr (congrArg Prod.snd hmem)

theorem ensurePorts_lookup_cases {trig : Nat → ℚ × ℚ} {w h : ℚ} {ps : List Nat}
    {m : NodeMap} {k : String} {n : Node}
    (hl : lookupA k (ensurePorts trig w h ps m) = some n) :
    lookupA k m = some n ∨ n.type = "port" := by
  obtain ⟨ext, heq, hprop⟩ := ensurePortsAux_shape trig w h 0 ps m
  have hl2 : lookupA k (ensurePortsAux trig w h 0 ps m) = some n := hl
  rw [heq] at hl2
  rcases lookupA_append_cases hl2 with h1 | ⟨_, h2⟩
  · exact Or.inl h1
  · obtain ⟨_, ht, _⟩ := hprop _ (lookupA_some_mem h2)
    exact Or.inr ht

theorem processAdded_lookup_cases {rnd : Nat → ℚ × ℚ} {added : List Conn}
    {m : NodeMap} {links : List Link} {ctr : Nat} {k : String} {n : Node}
    (hl : lookupA k (processAdded rnd added m links ctr).1 = some n) :
    lookupA k m = some n ∨ (n.fx = none ∧ n.fy = none) := by
  obtain ⟨ext, heq, hprop⟩ := processAdded_unpinned rnd added m links ctr
  rw [heq] at hl
  rcases lookupA_append_cases hl with h1 | ⟨_, h2⟩
  · exact Or.inl h1
  · exact Or.inr (hprop _ (lookupA_some_mem h2))

theorem deltaUpdate_lookup_cases {hubId : String} {trig rnd : Nat → ℚ × ℚ}
    {w h : ℚ} {S : List Conn} {g : GraphState} {ctr : Nat} {k : String} {n : Node}
    (hl : lookupA k (deltaUpdate hubId trig rnd w h S g ctr).1.nodesMap = some n) :
    lookupA k g.nodesMap = some n ∨ n.type = "hub" ∨ n.type = "port" ∨
      (n.fx = none ∧ n.fy = none) := by
  have hl2 : lookupA k (pruneNodes hubId (duLinks hubId trig rnd w h S g ctr)
      (duMapLinksCtr hubId trig rnd w h S g ctr).1) = some n := hl
  rw [lookupA_pruneNodes] at hl2
  split at hl2
  · have hl3 : lookupA k (processAdded rnd (duDiff S g).added
        (ensurePorts trig w h (duPorts S) (ensureHub hubId w h g.nodesMap))
        g.links ctr).1 = some n := hl2
    rcases processAdded_lookup_cases hl3 with h1 | h2
    · rcases ensurePorts_lookup_cases h1 with h3 | h4
      · rcases ensureHub_lookup_cases h3 with h5 | h6
        · exact Or.inl h5
        · refine Or.inr (Or.inl ?_)
          rw [h6]
          rfl
      · exact Or.inr (Or.inr (Or.inl h4))
    · exact Or.inr (Or.inr (Or.inr h2))
  · exact absurd hl2 (by simp)

theorem foldl_stepEv_ipFree (hubId : String) (trig rnd : Nat → ℚ × ℚ) :
    ∀ (evs : List Ev) (s : SysState),
      wfEvs s.dragging evs = true →
      (∀ id n, id ∉ s.dragging → lookupA id s.g.nodesMap = some n →
        n.type = "ip" → n.fx = none ∧ n.fy = none) →
      ∀ id n, id ∉ (evs.foldl (stepEv hubId trig rnd) s).dragging →
        lookupA id (evs.foldl (stepEv hubId trig rnd) s).g.nodesMap = some n →
        n.type = "ip" → n.fx = none ∧ n.fy = none := by
  intro evs
  induction evs with
  | nil => intro s _ hinv; exact hinv
  | cons e rest ih =>
    intro s hwf hinv
    rw [List.foldl_cons]
    cases e with
    | update snap w h =>
      refine ih (stepEv hubId trig rnd s (Ev.update snap w h)) ?_ ?_
      · exact hwf
      · intro id n hid hl hip
        have hl2 : lookupA id (deltaUpdate hubId trig rnd w h snap s.g s.ctr).1.nodesMap
            = some n := hl
        rcases deltaUpdate_lookup_cases hl2 with h1 | h2 | h3 | h4
        · exact hinv id n hid h1 hip
        · rw [hip] at h2
          exact absurd h2 (by decide)
        · rw [hip] at h3
          exact absurd h3 (by decide)
        · exact h4
    | dragStart did =>
      refine ih (stepEv hubId trig rnd s (Ev.dragStart did)) ?_ ?_
      · exact hwf
      · intro id n hid hl hip
        have hidne : id ≠ did := fun he => hid (he ▸ List.mem_cons_self _ _)
        have hid2 : id ∉ s.dragging := fun hm => hid (List.mem_cons_of_mem _ hm)
        have hl2 : lookupA id (mutateNode did dragStarted s.g.nodesMap) = some n := hl
        rw [lookupA_mutate_ne (Ne.symm hidne)] at hl2
        exact hinv id n hid2 hl2 hip
    | dragMove did ex ey =>
      have hwf1 : (decide (did ∈ s.dragging) && wfEvs s.dragging rest) = true := hwf
      have hpair : decide (did ∈ s.dragging) = true ∧ wfEvs s.dragging rest = true := by
        simpa using hwf1
      have hwf2 : wfEvs s.dragging rest = true := hpair.2
      have hdid : did ∈ s.dragging := of_decide_eq_true hpair.1
      refine ih (stepEv hubId trig rnd s (Ev.dragMove did ex ey)) ?_ ?_
      · exact hwf2
      · intro id n hid hl hip
        have hidne : id ≠ did := fun he => hid (he ▸ hdid)
        have hl2 : lookupA id (mutateNode did (dragged ex ey) s.g.nodesMap) = some n := hl
        rw [lookupA_mutate_ne (Ne.symm hidne)] at hl2
        exact hinv id n hid hl2 hip
    | dragEnd did =>
      refine ih (stepEv hubId trig rnd s (Ev.dragEnd did)) ?_ ?_
      · exact hwf
      · intro id n hid hl hip
        by_cases hke : id = did
        · subst hke
          have hl2 : lookupA id (mutateNode id dragEnded s.g.nodesMap) = some n := hl
          rw [lookupA_mutate_self] at hl2
          cases hm : lookupA id s.g.nodesMap with
          | none =>
            rw [hm] at hl2
            simp at hl2
          | some n0 =>
            rw [hm] at hl2
            have hn : dragEnded n0 = n := by simpa using hl2
            by_cases h0 : n0.type = "ip"
            · rw [← hn]
              unfold dragEnded
              rw [if_pos h0]
              exact ⟨rfl, rfl⟩
            · have hkeep : dragEnded n0 = n0 := by
                unfold dragEnded
                rw [if_neg h0]
              rw [hkeep] at hn
              rw [hn] at h0
              exact absurd hip h0
        · have hid2 : id ∉ s.dragging := fun hm =>
            hid ((List.mem_erase_of_ne hke).mpr hm)
          have hl2 : lookupA id (mutateNode did dragEnded s.g.nodesMap) = some n := hl
          rw [lookupA_mutate_ne (Ne.symm hke)] at hl2
          exact hinv id n hid2 hl2 hip

/-- C7 counterexample: one update with `[{10.0.0.2 -> 8.8.8.8 : 443}]` at
viewport 1000×1000, then a drag-start and a drag-move to pointer position
(100, 200) on the `port-443` node.  `_dragged` pins whatever node is being
dragged at the pointer, so the port node's pin becomes (100, 200), which
differs from its creation-time pin (x = 800): a port node's `fx, fy` do NOT
stay equal to the values fixed at creation time under drag events. -/
theorem C7_counterexample :
    (lookupA (portId 443)
      (runEv hub0 trig0 rnd0
        [Ev.update [⟨"10.0.0.2", "8.8.8.8", 443⟩] 1000 1000,
         Ev.dragStart (portId 443),
         Ev.dragMove (portId 443) 100 200]).g.nodesMap =
      some (dragged 100 200 (dragStarted (portNode trig0 1000 1000 443 0)))) ∧
    (dragged 100 200 (dragStarted (portNode trig0 1000 1000 443 0))).fx ≠
      (portNode trig0 1000 1000 443 0).fx := by
  constructor
  · rfl
  · have hx1 : (dragged 100 200 (dragStarted (portNode trig0 1000 1000 443 0))).fx =
        some 100 := rfl
    have hx0 : (portNode trig0 1000 1000 443 0).fx = some 800 := by
      show some (starPlacement trig0 1000 1000 0).1 = some 800
      norm_num [starPlacement, starRadius, trig0]
    rw [hx1, hx0]
    intro hcontra
    have hc2 : (100 : ℚ) = 800 := Option.some.inj hcontra
    norm_num at hc2

/-- C7 amended: what the drag handlers actually guarantee.  (1) `_dragged`
pins the dragged node — of any kind, hub and port included — at the pointer
position, so hub/port pins are not creation-time constants under drags.
(2) `_dragEnded` leaves every non-IP node unchanged (a dragged hub or port
keeps the moved pin), and (3) resets the pin of an IP node to null.  (4) The
IP half of the claim holds: in any well-formed event run from a fresh card,
every IP node that is not currently being dragged has `fx = fy = null` —
update cycles create IP nodes unpinned and never pin existing nodes, and
every drag-end on an IP node clears its pin. -/
theorem C7_amended_drag_pinning (hubId : String) (trig rnd : Nat → ℚ × ℚ)
    (evs : List Ev) (hwf : wfEvs [] evs = true) :
    (∀ (s : SysState) (id : String) (ex ey : ℚ),
      lookupA id (stepEv hubId trig rnd s (Ev.dragMove id ex ey)).g.nodesMap =
        (lookupA id s.g.nodesMap).map (dragged ex ey)) ∧
    (∀ n : Node, n.type ≠ "ip" → dragEnded n = n) ∧
    (∀ n : Node, n.type = "ip" → (dragEnded n).fx = none ∧ (dragEnded n).fy = none) ∧
    (∀ id n, id ∉ (runEv hubId trig rnd evs).dragging →
      lookupA id (runEv hubId trig rnd evs).g.nodesMap = some n →
      n.type = "ip" → n.fx = none ∧ n.fy = none) := by
  refine ⟨?_, ?_, ?_, ?_⟩
  · intro s id ex ey
    show lookupA id (mutateNode id (dragged ex ey) s.g.nodesMap) = _
    exact lookupA_mutate_self _ _
  · intro n hn
    unfold dragEnded
    rw [if_neg hn]
  · intro n hn
    unfold dragEnded
    rw [if_pos hn]
    exact ⟨rfl, rfl⟩
  · refine foldl_stepEv_ipFree hubId trig rnd evs initSys hwf ?_
    intro id n _ hl _
    simp [initSys, initGraph, lookupA] at hl

/-- Witness instantiating the amended C7 theorem on a well-formed event run:
an update with one connection, then a drag start / move / end gesture on the
`10.0.0.2` IP node. -/
theorem C7_amended_drag_pinning_witness :
    (∀ (s : SysState) (id : String) (ex ey : ℚ),
      lookupA id (stepEv hub0 trig0 rnd0 s (Ev.dragMove id ex ey)).g.nodesMap =
        (lookupA id s.g.nodesMap).map (dragged ex ey)) ∧
    (∀ n : Node, n.type ≠ "ip" → dragEnded n = n) ∧
    (∀ n : Node, n.type = "ip" → (dragEnded n).fx = none ∧ (dragEnded n).fy = none) ∧
    (∀ id n, id ∉ (runEv hub0 trig0 rnd0
        [Ev.update [⟨"10.0.0.2", "8.8.8.8", 443⟩] 1000 1000,
         Ev.dragStart "10.0.0.2",
         Ev.dragMove "10.0.0.2" 100 200,
         Ev.dragEnd "10.0.0.2"]).dragging →
      lookupA id (runEv hub0 trig0 rnd0
        [Ev.update [⟨"10.0.0.2", "8.8.8.8", 443⟩] 1000 1000,
         Ev.dragStart "10.0.0.2",
         Ev.dragMove "10.0.0.2" 100 200,
         Ev.dragEnd "10.0.0.2"]).g.nodesMap = some n →
      n.type = "ip" → n.fx = none ∧ n.fy = none) :=
  C7_amended_drag_pinning hub0 trig0 rnd0
    [Ev.update [⟨"10.0.0.2", "8.8.8.8", 443⟩] 1000 1000,
     Ev.dragStart "10.0.0.2",
     Ev.dragMove "10.0.0.2" 100 200,
     Ev.dragEnd "10.0.0.2"]
    (by decide)
